import Mathlib

/-!
# Verification of the PropS OKR wrapper (`props_wrapper.py`)

A shallow embedding of the `PropSWrapper` class from
`src/baseline_system/parsers/props_wrapper.py`, together with proofs about the
per-sentence pipeline `parse` (predicate extraction, entity splitting,
modifier linking).

Modelling conventions:
* Python `int` token indices are modelled as `Nat`; all real inputs use 1-based
  positive token ids (the dependency tree's position 0 is the ROOT node), so
  the `- 1` computations never underflow on well-formed inputs.
* Python `dict`s are modelled as association lists with insert-or-update
  (`dinsert`), which keeps a deterministic insertion order; Python `set`s are
  modelled as deduplicated lists.  Both are deterministic functions of the
  operations performed, like their CPython counterparts.
* Generated symbols `"A{n}"` / `"P{n}"` are modelled by the tagged type `Sym`
  with a rendering function used when symbols are spliced into templates.
* Code that can raise a Python exception (indexing errors, `min` of an empty
  list, attribute errors) is modelled with `Option`: `none` means the sentence
  is aborted by an uncaught exception.
* Graph nodes refer to each other by ids resolved against the node list,
  instead of by object references; recursions that follow such references
  (`get_dep_height`, `get_props_neighbors`) take a fuel argument bounded by
  the size of the structure, which is enough for the acyclic inputs the
  Python code terminates on.
-/

namespace PropsWrapper

/-- A word of a PropS node span (`w.index`, `w.word`). -/
structure Word where
  index : Nat
  word : String
deriving DecidableEq

/-- A dependency-tree token: 1-based id, surface word, POS tag, relation to its
parent, parent id (none for ROOT) and child ids. -/
structure DepNode where
  id : Nat
  word : String
  pos : String
  parent_relation : String
  parent : Option Nat
  children : List Nat
deriving DecidableEq

/-- A PropS proposition-graph node: `isPredicate` flag, `is_implicit()` flag,
`isConj()` flag, its own text span (`node.text`), its subtree text
(`node.str`), neighbors as a relation-label → neighbor-node-id mapping, and
the optional `Lemma` feature. -/
structure PropsNode where
  nid : Nat
  isPredicate : Bool
  isImplicit : Bool
  isConjFlag : Bool
  text : List Word
  strWords : List Word
  neighborsL : List (String × List Nat)
  lemmaFeat : Option String
deriving DecidableEq

/-- A spacy named entity: token-offset span `[startI, endI)`, root token index
(`ent.root.i`), surface text and category label. -/
structure NamedEntity where
  startI : Nat
  endI : Nat
  rootI : Nat
  text : String
  label : String
deriving DecidableEq

/-- A generated symbol: the `"A{n}"` (entity) or `"P{n}"` (predicate) family. -/
inductive Sym where
  | A : Nat → Sym
  | P : Nat → Sym
deriving DecidableEq

/-- Whether a symbol belongs to the entity (`"A-n"`) family. -/
def isEntitySym : Sym → Bool
  | Sym.A _ => true
  | Sym.P _ => false

/-- Render a symbol as the string the Python code generates. -/
def renderSym : Sym → String
  | Sym.A n => "A" ++ toString n
  | Sym.P n => "P" ++ toString n

/-- `"{{{}}}".format(symbol)`: the template placeholder for a symbol. -/
def placeholder (s : Sym) : String := "\x7b" ++ renderSym s ++ "\x7d"

/-! ## Python dict / list primitives -/

/-- Python dict assignment `d[k] = v` on an association list: update in place
if the key is present, else append at the end. -/
def dinsert [DecidableEq α] (k : α) (v : β) : List (α × β) → List (α × β)
  | [] => [(k, v)]
  | (k', v') :: rest =>
    if k' = k then (k, v) :: rest else (k', v') :: dinsert k v rest

/-- Python dict lookup `d[k]` (first binding; keys are unique by
construction). -/
def dlookup [DecidableEq α] (k : α) : List (α × β) → Option β
  | [] => none
  | (k', v') :: rest => if k' = k then some v' else dlookup k rest

/-- The keys of an association list. -/
def dkeys (l : List (α × β)) : List α := l.map Prod.fst

/-- Python dict-comprehension lookup where later pairs overwrite earlier ones
(`{f(x) : x for x in l}`): the *last* matching element wins. -/
def lastFind? (p : α → Bool) (l : List α) : Option α := l.reverse.find? p

/-- Fold a fallible step over a list, aborting on the first `none`
(models an uncaught Python exception during a loop). -/
def ofoldl (f : σ → α → Option σ) : σ → List α → Option σ
  | s, [] => some s
  | s, a :: as =>
    match f s a with
    | none => none
    | some s' => ofoldl f s' as

/-- Characters of `" ".join(ws)`. -/
def joinChars : List (List Char) → List Char
  | [] => []
  | [w] => w
  | w :: ws => w ++ ' ' :: joinChars ws

/-- Python `" ".join(ws)` on strings. -/
def pyJoin (ws : List String) : String := ⟨joinChars (ws.map String.data)⟩

/-- Characters of Python `s.split(" ")`: split on every single space, no
collapsing, `"" ↦ [""]`. -/
def splitChars : List Char → List (List Char)
  | [] => [[]]
  | c :: rest =>
    if c = ' ' then [] :: splitChars rest
    else
      match splitChars rest with
      | w :: ws => (c :: w) :: ws
      | [] => [[c]]

/-- Python `s.split(" ")` on strings. -/
def pySplit (s : String) : List String := (splitChars s.data).map String.mk

/-- Insert into a list sorted by key `f`, after all elements with a key `≤`
the new one (the insertion step of a stable sort). -/
def sinsert (f : α → Nat) (a : α) : List α → List α
  | [] => [a]
  | b :: bs => if f b ≤ f a then b :: sinsert f a bs else a :: b :: bs

/-- Python `sorted(l, key = f)`: a stable sort by the key `f`. -/
def pySortBy (f : α → Nat) : List α → List α
  | [] => []
  | a :: as => sinsert f a (pySortBy f as)

/-- Python `min(l, key = f)`: the first element with minimal key, `none` on an
empty list (where Python raises `ValueError`). -/
def pyMin (f : α → Nat) : List α → Option α
  | [] => none
  | x :: xs => some (xs.foldl (fun b a => if f a < f b then a else b) x)

/-! ## Per-sentence state and symbol table -/

/-- An entity record: `(surface text, tuple of 0-based token indices)`. -/
abbrev EntityRecord := String × List Nat

/-- The `Bare predicate` field: either the `IMPLICIT_SYMBOL` constant
`("IMPLICIT", (-1,))` or a real `(text, 0-based indices)` pair. -/
inductive BareP where
  | implicitB : BareP
  | words : String → List Nat → BareP
deriving DecidableEq

/-- The `Head` field of a predicate record.  `surfaceInds` is `some` for
records built by `parse_predicate` (where `Surface` is the pair
`(word, [index])`) and `none` where the code stores a bare string. -/
structure HeadVal where
  surface : String
  surfaceInds : Option (List Nat)
  hlemma : String
  pos : String
deriving DecidableEq

/-- A predicate record of the OKR. -/
structure PredRecord where
  bare : BareP
  template : String
  head : HeadVal
  arguments : List Sym
deriving DecidableEq

/-- The mutable per-sentence state of `PropSWrapper`
(see `_init_internal_state`). -/
structure PState where
  pred_counter : Nat
  ent_counter : Nat
  entities : List (Sym × EntityRecord)
  predicates : List (Sym × PredRecord)
  tok_ind_to_symbol : List (Nat × Sym)
deriving DecidableEq

/-- `_init_internal_state`: the state at the start of every `parse` call. -/
def init_state : PState :=
  { pred_counter := 0, ent_counter := 0, entities := [], predicates := [],
    tok_ind_to_symbol := [] }

/-- `_gensym_pred`: increment the predicate counter and return `P{n}`. -/
def gensym_pred (st : PState) : Sym × PState :=
  (Sym.P (st.pred_counter + 1), { st with pred_counter := st.pred_counter + 1 })

/-- `_gensym_ent`: increment the entity counter and return `A{n}`. -/
def gensym_ent (st : PState) : Sym × PState :=
  (Sym.A (st.ent_counter + 1), { st with ent_counter := st.ent_counter + 1 })

/-- `get_element_symbol`: return the symbol bound to `tok_ind`, generating and
recording a fresh one with `gen` if the index is unbound.  Note that no check
is made that an existing symbol has the requested kind. -/
def get_element_symbol (st : PState) (tok_ind : Nat)
    (gen : PState → Sym × PState) : Sym × PState :=
  match dlookup tok_ind st.tok_ind_to_symbol with
  | some s => (s, st)
  | none =>
    let p := gen st
    (p.1, { p.2 with tok_ind_to_symbol := dinsert tok_ind p.1 p.2.tok_ind_to_symbol })

/-! ## Graph helpers -/

/-- `COPULA`, imported from `props.graph_representation.newNode`.
Modelled from the spec: the marker word of implicit copula ("same-as")
nodes in PropS. -/
def COPULA : String := "be"

/-- `AUX_LABELS`: dependency labels folded into a bare predicate. -/
def AUX_LABELS : List String :=
  ["det", "neg", "aux", "auxpass", "prep", "cc", "conj"]

/-- Resolve a props node id against the graph. -/
def nodeById (g : List PropsNode) (i : Nat) : Option PropsNode :=
  g.find? (fun n => n.nid = i)

/-- Resolve a dependency node id against the tree. -/
def depById (dt : List DepNode) (i : Nat) : Option DepNode :=
  dt.find? (fun n => n.id = i)

/-- `dep_node.get_children()`. -/
def get_children (dt : List DepNode) (n : DepNode) : List DepNode :=
  n.children.filterMap (depById dt)

/-- `get_dep_height`: number of links between a node and ROOT, following
parent pointers (with fuel; the Python recursion diverges only on cyclic
parent chains, which no tree input has). -/
def get_dep_height (dt : List DepNode) : Nat → DepNode → Nat
  | 0, _ => 0
  | fuel + 1, n =>
    match n.parent with
    | none => 0
    | some p =>
      match depById dt p with
      | none => 0
      | some pn => 1 + get_dep_height dt fuel pn

/-- `get_dep_node`: the dependency tokens whose id matches a word index of the
props node's span, minimized by depth from ROOT.  `none` models the Python
`ValueError` of `min` on an empty sequence. -/
def get_dep_node (dt : List DepNode) (pn : PropsNode) : Option DepNode :=
  pyMin (get_dep_height dt dt.length)
    (dt.filter (fun node => (pn.text.map Word.index).contains node.id))

/-- The raw (not copula-collapsed) flat neighbor list of a props node. -/
def rawNeighbors (g : List PropsNode) (n : PropsNode) : List PropsNode :=
  n.neighborsL.flatMap (fun p => p.2.filterMap (nodeById g))

/-- Whether a neighbor is an implicit copula ("SameAs") node
(`neighbor.is_implicit() and neighbor.text[0].word == COPULA`). -/
def isCopulaNode (n : PropsNode) : Bool :=
  n.isImplicit &&
    (match n.text with
     | w :: _ => w.word = COPULA
     | [] => false)

/-- `get_props_neighbors`: flat neighbor set, transparently replacing implicit
copula neighbors by their own neighbors (recursively, with fuel). -/
def get_props_neighbors (g : List PropsNode) : Nat → PropsNode → List PropsNode
  | 0, _ => []
  | fuel + 1, n =>
    let all := rawNeighbors g n
    let kept := all.filter (fun x => !isCopulaNode x)
    let sameAs := all.filter (fun x => isCopulaNode x)
    (kept ++ sameAs.flatMap (get_props_neighbors g fuel)).dedup

/-- `is_props_dependent`: whether `word_ind` occurs in the text of any raw
neighbor of `pred_node`. -/
def is_props_dependent (g : List PropsNode) (pn : PropsNode) (word_ind : Nat) : Bool :=
  ((rawNeighbors g pn).flatMap (fun n => n.text.map Word.index)).contains word_ind

/-- `get_mwp`: the multiword bare predicate — the anchor dependency node plus
those direct children with an auxiliary relation that are not themselves
props-dependents of the predicate node. -/
def get_mwp (dt : List DepNode) (g : List PropsNode) (pn : PropsNode) :
    Option (List DepNode) :=
  (get_dep_node dt pn).map (fun dep_node =>
    dep_node :: (get_children dt dep_node).filter
      (fun c => AUX_LABELS.contains c.parent_relation &&
                !is_props_dependent g pn c.id))

/-- `get_node_ind`: the canonical token-index projection.  Predicate props
nodes project to the minimal word index of their span, non-predicates to the
maximal one (the head of a noun span is its last word); when the span is empty
(so the Python `min`/`max` raises and the `except` branch fires) the node's
own `id` is returned. -/
def get_node_ind (n : PropsNode) : Nat :=
  match n.text with
  | [] => n.nid
  | w :: ws =>
    if n.isPredicate then (ws.map Word.index).foldl min w.index
    else (ws.map Word.index).foldl max w.index

/-- `get_predicates`: the proposition nodes that qualify as predicates under
the three configuration flags. -/
def get_predicates (get_zero_args get_implicits get_conj : Bool)
    (g : List PropsNode) : List PropsNode :=
  g.filter (fun node =>
    node.isPredicate &&
    !((!get_zero_args) && node.neighborsL.length == 0) &&
    !((!get_implicits) && node.isImplicit) &&
    !((!get_conj) && node.isConjFlag))

/-! ## Predicate extraction (`parse_predicate`) -/

/-- Evaluate `get_element_symbol` over a list of props nodes at their
`get_node_ind` keys (the state-threaded list comprehensions of
`parse_predicate`). -/
def mapSyms (gen : PState → Sym × PState) (st : PState) :
    List PropsNode → List Sym × PState
  | [] => ([], st)
  | n :: ns =>
    let p := get_element_symbol st (get_node_ind n) gen
    let q := mapSyms gen p.2 ns
    (p.1 :: q.1, q.2)

/-- The entity record built for a props node: deduplicated, index-sorted
subtree text (`sorted(set(node.str))`) with 0-based indices. -/
def props_entity_record (n : PropsNode) : EntityRecord :=
  (pyJoin ((pySortBy Word.index n.strWords.dedup).map Word.word),
   (pySortBy Word.index n.strWords.dedup).map (fun w => w.index - 1))

/-- Register a props node as an entity under its `get_node_ind` symbol.
Models both the entity-registration loop at the end of `parse_predicate` and
`add_props_node_to_entities`. -/
def add_props_entity (st : PState) (n : PropsNode) : PState :=
  let p := get_element_symbol st (get_node_ind n) gensym_ent
  { p.2 with entities := dinsert p.1 (props_entity_record n) p.2.entities }

/-- The entity-registration loop at the end of `parse_predicate`. -/
def addEntitiesFor (st : PState) (ns : List PropsNode) : PState :=
  ns.foldl add_props_entity st

/-- `create_implicit_proposition`: an implicit proposition over the given
argument symbols. -/
def create_implicit_proposition (arg_symbols : List Sym) : PredRecord :=
  { bare := BareP.implicitB,
    template := pyJoin (arg_symbols.map placeholder),
    head := { surface := "IMPLICIT", surfaceInds := none,
              hlemma := "IMPLICIT", pos := "IMPLICIT" },
    arguments := arg_symbols }

/-- The template of `parse_predicate`: literal bare-predicate words and one
placeholder per argument, interleaved by ascending token index
(a stable sort, as in Python). -/
def build_template (elements : List (Nat × String)) : String :=
  pyJoin ((pySortBy Prod.fst elements).map Prod.snd)

/-- `parse_predicate`: populate the predicate record (bare predicate,
template, head, arguments) for one qualifying predicate node, then register
its entity arguments.  `none` models the uncaught exception raised when the
node has no dependency-tree match. -/
def parse_predicate (dt : List DepNode) (g : List PropsNode)
    (predicate_nodes : List PropsNode) (st : PState) (pn : PropsNode) :
    Option PState :=
  match get_dep_node dt pn with
  | none => none
  | some dep_tree_node =>
    match get_mwp dt g pn with
    | none => none
    | some bare_predicate =>
      let sortedBare := pySortBy DepNode.id bare_predicate
      let bare_predicate_str := pyJoin (sortedBare.map DepNode.word)
      let bare_predicate_indices := sortedBare.map (fun n => n.id - 1)
      let p0 := get_element_symbol st (get_node_ind pn) gensym_pred
      let predicate_symbol := p0.1
      let predicate_items : List (Nat × String) :=
        bare_predicate.map (fun n => (n.id, n.word))
      let neighbors := get_props_neighbors g g.length pn
      let dep_preds := neighbors.filter (fun n => predicate_nodes.contains n)
      let dep_entities := neighbors.filter
        (fun n => !predicate_nodes.contains n && !n.isImplicit)
      let q1 := mapSyms gensym_pred p0.2 dep_preds
      let q2 := mapSyms gensym_ent q1.2 dep_entities
      let all_template_elements := predicate_items ++
        (dep_preds.zip q1.1).map (fun p => (get_node_ind p.1, placeholder p.2)) ++
        (dep_entities.zip q2.1).map (fun p => (get_node_ind p.1, placeholder p.2))
      let template := build_template all_template_elements
      let q3 := mapSyms gensym_ent q2.2 dep_entities
      let q4 := mapSyms gensym_pred q3.2 dep_preds
      let record : PredRecord :=
        { bare := BareP.words bare_predicate_str bare_predicate_indices,
          template := template,
          head := { surface := dep_tree_node.word,
                    surfaceInds := some [dep_tree_node.id - 1],
                    hlemma := pn.lemmaFeat.getD "",
                    pos := dep_tree_node.pos },
          arguments := q3.1 ++ q4.1 }
      let st6 := { q4.2 with
        predicates := dinsert predicate_symbol record q4.2.predicates }
      some (addEntitiesFor st6 dep_entities)

/-! ## Entity splitting (`_split_entities`) -/

/-- `_get_named_entities`: keep only named entities with a relevant label. -/
def relevant_labels : List String :=
  ["PERSON", "NORP", "FACILITY", "ORG", "GPE", "LOC", "PRODUCT", "EVENT",
   "WORK_OF_ART", "LANGUAGE", "DATE", "TIME", "QUANTITY", "MONEY"]

/-- The filtered named-entity list (`self._named_entities`). -/
def get_named_entities (nes : List NamedEntity) : List NamedEntity :=
  nes.filter (fun e => relevant_labels.contains e.label)

/-- `NE_to_indices`: `tuple(range(ent.start, ent.end))`. -/
def NE_to_indices (ne : NamedEntity) : List Nat :=
  List.range' ne.startI (ne.endI - ne.startI)

/-- `NE_to_entity`: the output entity record of a named entity. -/
def NE_to_entity (ne : NamedEntity) : EntityRecord := (ne.text, NE_to_indices ne)

/-- `self._all_NEs_token_indices`. -/
def all_NEs_token_indices (nes : List NamedEntity) : List Nat :=
  nes.flatMap NE_to_indices

/-- `tok_ind_to_NE`: token index → covering named entity (dict comprehension,
later entities overwrite earlier ones). -/
def tok_ind_to_NE (nes : List NamedEntity) (i : Nat) : Option NamedEntity :=
  lastFind? (fun ne => (NE_to_indices ne).contains i) nes

/-- `NE_root_ind_to_ent`: root token index → named entity. -/
def NE_root_ind_to_ent (nes : List NamedEntity) (i : Nat) : Option NamedEntity :=
  lastFind? (fun ne => ne.rootI == i) nes

/-- `ent_symbol_to_head_ind`: the inverse of `tok_ind_to_symbol` (built as a
dict comprehension, so the last binding with a given symbol wins). -/
def ent_symbol_to_head_ind (symtab : List (Nat × Sym)) (s : Sym) : Option Nat :=
  (lastFind? (fun p => p.2 == s) symtab).map Prod.fst

/-- The state threaded through `_split_entities`: the per-sentence state, the
`ret` dictionary under construction, and the `NEs_to_insert` set. -/
structure SplitState where
  ps : PState
  ret : List (Sym × EntityRecord)
  nes_to_insert : List NamedEntity
deriving DecidableEq

/-- The head-inside-named-entity branch at the start of each entity's
processing: if the head token is covered by a named entity, replace the whole
entity by that named entity's record and mark it consumed. -/
def split_entity_ne_check (nes : List NamedEntity) (ent_head_symbol : Sym)
    (cur_head_ind : Nat) (ss : SplitState) : Option SplitState :=
  if (all_NEs_token_indices (get_named_entities nes)).contains (cur_head_ind - 1) then
    match tok_ind_to_NE (get_named_entities nes) (cur_head_ind - 1) with
    | none => none
    | some named_entity =>
      some { ss with
        ret := dinsert ent_head_symbol (NE_to_entity named_entity) ss.ret,
        nes_to_insert := ss.nes_to_insert.erase named_entity }
  else some ss

/-- The default branch of the token loop: materialize the token as its own
single-word entity and link it to the entity head by an implicit proposition
whose arguments are ordered by sentence position. -/
def split_token_default (ent_head_symbol : Sym) (cur_head_ind : Nat)
    (ss : SplitState) (word : String) (ind : Nat) : Option SplitState :=
  let p1 := get_element_symbol ss.ps (ind + 1) gensym_ent
  let new_ent_symbol := p1.1
  let ret1 := dinsert new_ent_symbol (word, [ind]) ss.ret
  let p2 := gensym_pred p1.2
  let ordered := pySortBy Prod.snd
    [(new_ent_symbol, ind + 1), (ent_head_symbol, cur_head_ind)]
  some { ps := { p2.2 with
           predicates := dinsert p2.1
             (create_implicit_proposition (ordered.map Prod.fst))
             p2.2.predicates },
         ret := ret1, nes_to_insert := ss.nes_to_insert }

/-- The branches of the token loop of `_split_entities` that follow the
named-entity checks: skip tokens covered by a named entity, drop determiners,
convert an in-span preposition with its sole in-span child into an explicit
predicate, skip the corresponding `pobj`, and default to a fresh single-word
entity linked to the head by an implicit proposition. -/
def split_token_rest (dt : List DepNode) (nes : List NamedEntity)
    (ent_head_symbol : Sym) (cur_head_ind : Nat) (ent_indices : List Nat)
    (cur_dep_node : DepNode) (ss : SplitState) (word : String) (ind : Nat) :
    Option SplitState :=
  if (all_NEs_token_indices (get_named_entities nes)).contains ind then
    some ss
  else if cur_dep_node.parent_relation = "det" then
    some ss
  else if cur_dep_node.parent_relation = "prep" &&
          cur_dep_node.children.length == 1 &&
          (match cur_dep_node.children.head? with
           | some cid => ent_indices.contains (cid - 1)
           | none => false) then
    match cur_dep_node.children.head? with
    | none => none
    | some cid =>
      match depById dt cid with
      | none => none
      | some prep_child =>
        let p1 := get_element_symbol ss.ps prep_child.id gensym_ent
        let prep_child_symbol := p1.1
        let ret1 := dinsert prep_child_symbol
          (prep_child.word, [prep_child.id - 1]) ss.ret
        let p2 := get_element_symbol p1.2 (ind + 1) gensym_pred
        let prep_symbol := p2.1
        let record : PredRecord :=
          { bare := BareP.words word [ind],
            template := placeholder ent_head_symbol ++ " " ++ word ++ " " ++
                        placeholder prep_child_symbol,
            head := { surface := word, surfaceInds := none,
                      hlemma := word, pos := "IN" },
            arguments := [ent_head_symbol, prep_child_symbol] }
        some { ps := { p2.2 with
                 predicates := dinsert prep_symbol record p2.2.predicates },
               ret := ret1, nes_to_insert := ss.nes_to_insert }
  else
    if cur_dep_node.parent_relation = "pobj" then
      match cur_dep_node.parent with
      | none => none
      | some pid =>
        if ent_indices.contains (pid - 1) then some ss
        else split_token_default ent_head_symbol cur_head_ind ss word ind
    else split_token_default ent_head_symbol cur_head_ind ss word ind

/-- One iteration of the token loop of `_split_entities`. -/
def split_token_step (dt : List DepNode) (nes : List NamedEntity)
    (ent_head_symbol : Sym) (cur_head_ind : Nat) (ent_indices : List Nat)
    (ss : SplitState) (wi : String × Nat) : Option SplitState :=
  match dt.get? (wi.2 + 1) with
  | none => none
  | some cur_dep_node =>
    if wi.2 + 1 = cur_head_ind &&
       !(dkeys ss.ret).contains ent_head_symbol then
      some { ss with ret := dinsert ent_head_symbol (wi.1, [wi.2]) ss.ret }
    else
      match NE_root_ind_to_ent (get_named_entities nes) wi.2 with
      | some ne =>
        if ss.nes_to_insert.contains ne then
          let p := get_element_symbol ss.ps (wi.2 + 1) gensym_ent
          some { ps := p.2,
                 ret := dinsert p.1 (NE_to_entity ne) ss.ret,
                 nes_to_insert := ss.nes_to_insert.erase ne }
        else
          split_token_rest dt nes ent_head_symbol cur_head_ind ent_indices
            cur_dep_node ss wi.1 wi.2
      | none =>
        split_token_rest dt nes ent_head_symbol cur_head_ind ent_indices
          cur_dep_node ss wi.1 wi.2

/-- Process one original entity of `self.entities`: the named-entity head
check followed by the token loop over the entity's words. -/
def split_entity (dt : List DepNode) (nes : List NamedEntity)
    (ss : SplitState) (e : Sym × EntityRecord) : Option SplitState :=
  match ent_symbol_to_head_ind ss.ps.tok_ind_to_symbol e.1 with
  | none => none
  | some cur_head_ind =>
    match split_entity_ne_check nes e.1 cur_head_ind ss with
    | none => none
    | some ss1 =>
      ofoldl (split_token_step dt nes e.1 cur_head_ind e.2.2) ss1
        ((pySplit e.2.1).zip e.2.2)

/-- `_split_entities`: rewrite the raw entity map into single-word and
named-entity records, returning the new state (with `entities` replaced by
`ret`). -/
def split_entities (dt : List DepNode) (nes : List NamedEntity) (st : PState) :
    Option PState :=
  let init : SplitState :=
    { ps := st, ret := [], nes_to_insert := (get_named_entities nes).dedup }
  (ofoldl (split_entity dt nes) init st.entities).map
    (fun ss => { ss.ps with entities := ss.ret })

/-! ## Modifier linking (`add_modifiers_as_implicits`) -/

/-- The body of `add_modifiers_as_implicits` for one modifier of `ent`. -/
def add_modifier (ent : PropsNode) (st : PState)
    (modifier : PropsNode) : PState :=
  let ordered_args := pySortBy get_node_ind [ent, modifier]
  let st2 := add_props_entity st modifier
  let p := gensym_pred st2
  let q := mapSyms gensym_ent p.2 ordered_args
  { q.2 with predicates :=
      dinsert p.1 (create_implicit_proposition q.1) q.2.predicates }

/-- One iteration of the outer loop of `add_modifiers_as_implicits`. -/
def add_modifiers_step (g : List PropsNode) (allNEIdx : List Nat) (st : PState)
    (ent : PropsNode) : PState :=
  match dlookup (get_node_ind ent) st.tok_ind_to_symbol with
  | none => st
  | some entSym =>
    if (dkeys st.entities).contains entSym then
      ((get_props_neighbors g g.length ent).filter (fun m =>
          !m.isPredicate && !m.isImplicit &&
          !allNEIdx.contains (get_node_ind m - 1))).foldl
        (add_modifier ent) st
    else st

/-- `add_modifiers_as_implicits`: add every remaining entity modifier as an
implicit relation. -/
def add_modifiers_as_implicits (g : List PropsNode) (allNEIdx : List Nat)
    (st : PState) : PState :=
  g.foldl (add_modifiers_step g allNEIdx) st

/-! ## The full per-sentence pipeline -/

/-- `parse_okr`: extract predicates, split entities, link modifiers. -/
def parse_okr (cfg_implicits cfg_zero_args cfg_conj : Bool)
    (dt : List DepNode) (g : List PropsNode) (nes : List NamedEntity)
    (st : PState) : Option PState :=
  let predicate_nodes := get_predicates cfg_zero_args cfg_implicits cfg_conj g
  match ofoldl (parse_predicate dt g predicate_nodes) st predicate_nodes with
  | none => none
  | some st1 =>
    match split_entities dt nes st1 with
    | none => none
    | some st2 =>
      some (add_modifiers_as_implicits g
        (all_NEs_token_indices (get_named_entities nes)) st2)

/-- `get_sentence`: the tokenized sentence, id-sorted words with ROOT
skipped. -/
def get_sentence (dt : List DepNode) : String :=
  pyJoin (((pySortBy DepNode.id dt).drop 1).map DepNode.word)

/-- The OKR record returned by `get_okr`. -/
structure OKR where
  sentence : String
  entities : List (Sym × EntityRecord)
  predicates : List (Sym × PredRecord)
deriving DecidableEq

/-- `parse` followed by `get_okr`: reset the internal state, run the pipeline
on the sentence's dependency tree, proposition graph and named entities, and
read off the OKR.  `none` models an uncaught exception (the sentence is
aborted without producing an OKR). -/
def parse (cfg_implicits cfg_zero_args cfg_conj : Bool) (dt : List DepNode)
    (g : List PropsNode) (nes : List NamedEntity) : Option OKR :=
  (parse_okr cfg_implicits cfg_zero_args cfg_conj dt g nes init_state).map
    (fun st =>
      { sentence := get_sentence dt, entities := st.entities,
        predicates := st.predicates })

/-! ## Well-formedness of inputs and state invariants -/

/-- A well-formed span word: a positive (1-based) token index and a surface
word without spaces (so that Python's `" ".join` / `.split(" ")` round-trip). -/
def WfWord (w : Word) : Prop := 1 ≤ w.index ∧ ' ' ∉ w.word.data

/-- A well-formed props node: a nonempty own span whose word indices all occur
in the subtree span `node.str`, with well-formed subtree words. -/
def WfNode (n : PropsNode) : Prop :=
  n.text ≠ [] ∧ (∀ w ∈ n.text, ∃ v ∈ n.strWords, v.index = w.index) ∧
  (∀ v ∈ n.strWords, WfWord v)

/-- A well-formed proposition graph input. -/
def WfGraph (g : List PropsNode) : Prop := ∀ n ∈ g, WfNode n

/-- The counter bound a symbol recorded in the state must satisfy. -/
def symOk (st : PState) : Sym → Prop
  | Sym.A i => 1 ≤ i ∧ i ≤ st.ent_counter
  | Sym.P i => 1 ≤ i ∧ i ≤ st.pred_counter

/-- The symbol-table invariant: recorded symbols are within the counters, and
both token indices and symbols are duplicate-free (each `get_element_symbol`
binding is fresh on both sides). -/
def symtabOk (st : PState) : Prop :=
  (∀ p ∈ st.tok_ind_to_symbol, symOk st p.2) ∧
  (dkeys st.tok_ind_to_symbol).Nodup ∧
  (st.tok_ind_to_symbol.map Prod.snd).Nodup

/-- Monotone evolution of the symbol table: bindings are only appended and
counters only grow. -/
def symtabStep (st st' : PState) : Prop :=
  st.tok_ind_to_symbol <+: st'.tok_ind_to_symbol ∧
  st.ent_counter ≤ st'.ent_counter ∧ st.pred_counter ≤ st'.pred_counter

/-- Specification of a symbol generator (`_gensym_ent` / `_gensym_pred`): it
only bumps a counter, its output satisfies the new counter bounds, and it is
fresh with respect to every symbol that satisfied the old bounds.  `K` is the
kind of the generated symbols. -/
def GenSpec (gen : PState → Sym × PState) (K : Sym → Bool) : Prop :=
  ∀ st : PState,
    (gen st).2.entities = st.entities ∧
    (gen st).2.predicates = st.predicates ∧
    (gen st).2.tok_ind_to_symbol = st.tok_ind_to_symbol ∧
    st.ent_counter ≤ (gen st).2.ent_counter ∧
    st.pred_counter ≤ (gen st).2.pred_counter ∧
    symOk (gen st).2 (gen st).1 ∧
    K (gen st).1 = true ∧
    (∀ s₀, symOk st s₀ → symOk (gen st).2 s₀ ∧ s₀ ≠ (gen st).1)

/-- Every `"A-n"` symbol recorded in the symbol table has an entity record
(the invariant of the predicate-extraction phase). -/
def GoodA (st : PState) : Prop :=
  ∀ p ∈ st.tok_ind_to_symbol, isEntitySym p.2 = true → p.2 ∈ dkeys st.entities

/-- No dangling entity references: every `"A-n"` symbol in any predicate's
argument list is a key of the entity map. -/
def ArgsGood (st : PState) : Prop :=
  ∀ q ∈ st.predicates, ∀ a ∈ q.2.arguments,
    isEntitySym a = true → a ∈ dkeys st.entities

/-- The shape of entity records entering `_split_entities`: the key symbol is
bound to a positive head index whose 0-based form occurs in the record's index
tuple, and the record's text splits into as many words as there are indices. -/
def WfEnts (st : PState) : Prop :=
  ∀ e ∈ st.entities, ∃ k, (k, e.1) ∈ st.tok_ind_to_symbol ∧ 1 ≤ k ∧
    (k - 1) ∈ e.2.2 ∧ (pySplit e.2.1).length = e.2.2.length

/-! ## Claim-side predicates -/

/-- The 0-based indices of tokens whose relation to their parent is `det`. -/
def detTokenInds (dt : List DepNode) : List Nat :=
  (dt.filter (fun n => n.parent_relation == "det")).map (fun n => n.id - 1)

/-- Whether `pat` occurs as a substring of `s` (for nonempty `pat`). -/
def occursIn (pat s : String) : Bool := 2 ≤ (s.splitOn pat).length

/-- The determiner-exclusion property claimed of every parsed sentence: no
determiner token is its own entity, and no entity whose placeholder occurs in
some template covers a determiner token. -/
def det_never_materialized (dt : List DepNode) (okr : OKR) : Prop :=
  (∀ e ∈ okr.entities, ∀ d ∈ detTokenInds dt, e.2.2 ≠ [d]) ∧
  (∀ q ∈ okr.predicates, ∀ e ∈ okr.entities,
    occursIn (placeholder e.1) q.2.template = true →
    ∀ d ∈ detTokenInds dt, d ∉ e.2.2)

/-! ## Concrete inputs used by witnesses and counterexamples -/

/-- Dependency tree of the sentence `dog barked` (C1 witness). -/
def c1dt : List DepNode :=
  [⟨0, "ROOT", "", "", none, [2]⟩,
   ⟨1, "dog", "NN", "nsubj", some 2, []⟩,
   ⟨2, "barked", "VBD", "root", some 0, [1]⟩]

/-- Proposition graph of `dog barked` (C1 witness). -/
def c1g : List PropsNode :=
  [⟨10, true, false, false, [⟨2, "barked"⟩], [⟨2, "barked"⟩], [("nsubj", [11])], none⟩,
   ⟨11, false, false, false, [⟨1, "dog"⟩], [⟨1, "dog"⟩], [], none⟩]

/-- The OKR produced on `dog barked` (C1 witness). -/
def c1okr : OKR :=
  OKR.mk "dog barked" [(Sym.A 1, ("dog", [0]))]
    [(Sym.P 1, PredRecord.mk (BareP.words "barked" [1]) "\x7bA1\x7d barked"
        (HeadVal.mk "barked" (some [1]) "" "VBD") [Sym.A 1])]

/-- A predicate node with one neighbor relation (C2 witness). -/
def c2n : PropsNode :=
  ⟨1, true, false, false, [⟨1, "ran"⟩], [⟨1, "ran"⟩], [("a", [2])], none⟩

/-- A one-node graph (C2 witness). -/
def c2g : List PropsNode := [c2n]

/-- Dependency tree of `cup New York drank`, where token 1 is a preposition
whose sole child is token 3 (C4 counterexample). -/
def c4dt : List DepNode :=
  [⟨0, "ROOT", "", "", none, [4]⟩,
   ⟨1, "cup", "IN", "prep", some 4, [3]⟩,
   ⟨2, "New", "NNP", "nn", some 3, []⟩,
   ⟨3, "York", "NNP", "pobj", some 1, [2]⟩,
   ⟨4, "drank", "VBD", "root", some 0, [1]⟩]

/-- Proposition graph with one entity node headed at token 3 spanning tokens
1–3 (C4 counterexample). -/
def c4g : List PropsNode :=
  [⟨20, true, false, false, [⟨4, "drank"⟩], [⟨4, "drank"⟩], [("obj", [21])], some "drink"⟩,
   ⟨21, false, false, false, [⟨3, "York"⟩], [⟨1, "cup"⟩, ⟨2, "New"⟩, ⟨3, "York"⟩], [], none⟩]

/-- The named entity `New York` over 0-based tokens 1–2 (C4 counterexample). -/
def c4ne : NamedEntity := ⟨1, 3, 2, "New York", "LOC"⟩

/-- The state after the predicate pass on the C4 input. -/
def c4pre : PState :=
  PState.mk 1 1 [(Sym.A 1, ("cup New York", [0, 1, 2]))]
    [(Sym.P 1, PredRecord.mk (BareP.words "cup drank" [0, 3]) "cup \x7bA1\x7d drank"
        (HeadVal.mk "drank" (some [3]) "drink" "VBD") [Sym.A 1])]
    [(4, Sym.P 1), (3, Sym.A 1)]

/-- A named entity and split state for the C4 amended witness. -/
def c4wne : NamedEntity := ⟨1, 3, 2, "New York", "LOC"⟩

/-- A split state holding the C4 amended witness named entity. -/
def c4wss : SplitState :=
  ⟨PState.mk 0 1 [] [] [(3, Sym.A 1)], [], [c4wne]⟩

/-- Dependency tree of `deal in Boston happened`, with the preposition at
token 2 (C5 counterexample). -/
def c5dt : List DepNode :=
  [⟨0, "ROOT", "", "", none, [4]⟩,
   ⟨1, "deal", "NN", "nsubj", some 4, [2]⟩,
   ⟨2, "in", "IN", "prep", some 1, [3]⟩,
   ⟨3, "Boston", "NNP", "pobj", some 2, []⟩,
   ⟨4, "happened", "VBD", "root", some 0, [1]⟩]

/-- Proposition graph with one entity node spanning tokens 1–3 headed at
token 1 (C5 counterexample). -/
def c5g : List PropsNode :=
  [⟨30, true, false, false, [⟨4, "happened"⟩], [⟨4, "happened"⟩], [("nsubj", [31])], none⟩,
   ⟨31, false, false, false, [⟨1, "deal"⟩], [⟨1, "deal"⟩, ⟨2, "in"⟩, ⟨3, "Boston"⟩], [], none⟩]

/-- A named entity rooted at the preposition token (C5 counterexample). -/
def c5ne : NamedEntity := ⟨1, 2, 1, "in", "DATE"⟩

/-- The state after the predicate pass on the C5 input. -/
def c5pre : PState :=
  PState.mk 1 1 [(Sym.A 1, ("deal in Boston", [0, 1, 2]))]
    [(Sym.P 1, PredRecord.mk (BareP.words "happened" [3]) "\x7bA1\x7d happened"
        (HeadVal.mk "happened" (some [3]) "" "VBD") [Sym.A 1])]
    [(4, Sym.P 1), (1, Sym.A 1)]

/-- The state `_split_entities` produces on the C5 counterexample input: the
preposition was promoted to the entity `A2` and no preposition predicate was
emitted. -/
def c5post : PState :=
  PState.mk 1 2
    [(Sym.A 1, ("deal", [0])), (Sym.A 2, ("in", [1]))]
    [(Sym.P 1, PredRecord.mk (BareP.words "happened" [3]) "\x7bA1\x7d happened"
        (HeadVal.mk "happened" (some [3]) "" "VBD") [Sym.A 1])]
    [(4, Sym.P 1), (1, Sym.A 1), (2, Sym.A 2)]

/-- Dependency context for the C5 amended witness: `gift to Mary`. -/
def c5wdt : List DepNode :=
  [⟨0, "ROOT", "", "", none, [1]⟩,
   ⟨1, "gift", "NN", "root", some 0, [2]⟩,
   ⟨2, "to", "IN", "prep", some 1, [3]⟩,
   ⟨3, "Mary", "NNP", "pobj", some 2, []⟩]

/-- Split state for the C5 amended witness. -/
def c5wss : SplitState := ⟨PState.mk 0 1 [] [] [(1, Sym.A 1)], [], []⟩

/-- Dependency tree for the C6 witness (`dog barked`). -/
def c6dt : List DepNode :=
  [⟨0, "ROOT", "", "", none, [2]⟩,
   ⟨1, "dog", "NN", "nsubj", some 2, []⟩,
   ⟨2, "barked", "VBD", "root", some 0, [1]⟩]

/-- The predicate node of the C6 witness. -/
def c6pn : PropsNode :=
  ⟨10, true, false, false, [⟨2, "barked"⟩], [⟨2, "barked"⟩], [("nsubj", [11])], none⟩

/-- Proposition graph for the C6 witness. -/
def c6g : List PropsNode :=
  [c6pn, ⟨11, false, false, false, [⟨1, "dog"⟩], [⟨1, "dog"⟩], [], none⟩]

/-- The state `parse_predicate` produces on the C6 witness input. -/
def c6st : PState :=
  PState.mk 1 1 [(Sym.A 1, ("dog", [0]))]
    [(Sym.P 1, PredRecord.mk (BareP.words "barked" [1]) "\x7bA1\x7d barked"
        (HeadVal.mk "barked" (some [1]) "" "VBD") [Sym.A 1])]
    [(2, Sym.P 1), (1, Sym.A 1)]

/-- A state binding token 5 to the predicate symbol `P1` (C7). -/
def c7st : PState := PState.mk 1 0 [] [] [(5, Sym.P 1)]

/-- A state binding token 3 to the entity symbol `A1` (C7 amended witness). -/
def c7wst : PState := PState.mk 0 1 [] [] [(3, Sym.A 1)]

/-- Dependency tree for the C8 witness. -/
def c8dt : List DepNode :=
  [⟨0, "ROOT", "", "", none, [2]⟩,
   ⟨1, "dog", "NN", "nsubj", some 2, []⟩,
   ⟨2, "barked", "VBD", "root", some 0, [1]⟩]

/-- A props node whose span matches no dependency token (C8). -/
def c8bad : PropsNode :=
  ⟨40, true, false, false, [⟨9, "zz"⟩], [⟨9, "zz"⟩], [("a", [99])], none⟩

/-- A props node anchored at token 2 (C8 witness). -/
def c8good : PropsNode :=
  ⟨41, true, false, false, [⟨1, "dog"⟩, ⟨2, "barked"⟩], [⟨1, "dog"⟩, ⟨2, "barked"⟩],
   [("a", [99])], none⟩

/-- A graph containing only the unmatched predicate node (C8). -/
def c8g : List PropsNode := [c8bad]

/-- Dependency tree of `the dog barked` with a determiner at token 1 (C9
counterexample). -/
def c9dt : List DepNode :=
  [⟨0, "ROOT", "", "", none, [3]⟩,
   ⟨1, "the", "DT", "det", some 2, []⟩,
   ⟨2, "dog", "NN", "nsubj", some 3, [1]⟩,
   ⟨3, "barked", "VBD", "root", some 0, [2]⟩]

/-- Proposition graph where the determiner node is a modifier of `dog` (C9
counterexample). -/
def c9g : List PropsNode :=
  [⟨10, true, false, false, [⟨3, "barked"⟩], [⟨3, "barked"⟩], [("nsubj", [11])], some "bark"⟩,
   ⟨11, false, false, false, [⟨2, "dog"⟩], [⟨2, "dog"⟩], [("mod", [12])], none⟩,
   ⟨12, false, false, false, [⟨1, "the"⟩], [⟨1, "the"⟩], [], none⟩]

/-- A determiner dependency node (C9 amended witness). -/
def c9wcur : DepNode := ⟨1, "the", "DT", "det", some 2, []⟩

/-- A split state for the C9 amended witness. -/
def c9wss : SplitState := ⟨init_state, [], []⟩

/-- The OKR produced on the C9 counterexample input: the determiner `the`
ends up as its own entity `A2`. -/
def c9okr : OKR :=
  OKR.mk "the dog barked" [(Sym.A 1, ("dog", [1])), (Sym.A 2, ("the", [0]))]
    [(Sym.P 1, PredRecord.mk (BareP.words "barked" [2]) "\x7bA1\x7d barked"
        (HeadVal.mk "barked" (some [2]) "bark" "VBD") [Sym.A 1]),
     (Sym.P 2, PredRecord.mk BareP.implicitB "\x7bA2\x7d \x7bA1\x7d"
        (HeadVal.mk "IMPLICIT" none "IMPLICIT" "IMPLICIT") [Sym.A 2, Sym.A 1])]

/-- A predicate props node with an unsorted span (C10 witness). -/
def c10pred : PropsNode :=
  ⟨1, true, false, false, [⟨3, "a"⟩, ⟨1, "b"⟩, ⟨2, "c"⟩], [], [], none⟩

/-- A non-predicate props node with an unsorted span (C10 witness). -/
def c10ent : PropsNode :=
  ⟨2, false, false, false, [⟨3, "a"⟩, ⟨1, "b"⟩, ⟨2, "c"⟩], [], [], none⟩

/-- A props node with an empty span (C10 witness). -/
def c10empty : PropsNode := ⟨7, false, false, false, [], [], [], none⟩

/-! ## Basic lemmas: dictionaries -/

theorem dlookup_mem [DecidableEq α] {k : α} {v : β} :
    ∀ {l : List (α × β)}, dlookup k l = some v → (k, v) ∈ l := by
  intro l
  induction l with
  | nil => intro h; simp [dlookup] at h
  | cons p rest ih =>
    obtain ⟨k', v'⟩ := p
    intro h
    simp only [dlookup] at h
    by_cases hk : k' = k
    · simp [hk] at h; simp [hk, h]
    · simp [hk] at h
      exact List.mem_cons_of_mem _ (ih h)

theorem dlookup_eq_none_iff [DecidableEq α] {k : α} :
    ∀ {l : List (α × β)}, dlookup k l = none ↔ k ∉ dkeys l := by
  intro l
  induction l with
  | nil => simp [dlookup, dkeys]
  | cons p rest ih =>
    obtain ⟨k', v'⟩ := p
    by_cases hk : k' = k
    · simp [dlookup, hk, dkeys]
    · simp [dlookup, hk, dkeys, ih]
      intro h; exact fun he => hk he.symm

theorem dlookup_isSome_iff [DecidableEq α] {k : α} {l : List (α × β)} :
    (dlookup k l).isSome ↔ k ∈ dkeys l := by
  rw [← Option.ne_none_iff_isSome]
  constructor
  · intro h
    by_contra hk
    exact h (dlookup_eq_none_iff.2 hk)
  · intro h he
    exact dlookup_eq_none_iff.1 he h

theorem dlookup_of_mem_nodup [DecidableEq α] {k : α} {v : β} :
    ∀ {l : List (α × β)}, (dkeys l).Nodup → (k, v) ∈ l → dlookup k l = some v := by
  intro l
  induction l with
  | nil => intro _ h; simp at h
  | cons p rest ih =>
    obtain ⟨k', v'⟩ := p
    intro hnd hm
    simp only [dkeys, List.map_cons, List.nodup_cons] at hnd
    rcases List.mem_cons.1 hm with h | h
    · cases h; simp [dlookup]
    · have hne : k' ≠ k := by
        intro he
        exact hnd.1 (he ▸ List.mem_map.2 ⟨(k, v), h, rfl⟩)
      simp [dlookup, hne]
      exact ih hnd.2 h

theorem mem_dinsert [DecidableEq α] {k : α} {v : β} {p : α × β} :
    ∀ {l : List (α × β)}, p ∈ dinsert k v l → p = (k, v) ∨ p ∈ l := by
  intro l
  induction l with
  | nil => intro h; simp [dinsert] at h; simp [h]
  | cons q rest ih =>
    obtain ⟨k', v'⟩ := q
    intro h
    simp only [dinsert] at h
    by_cases hk : k' = k
    · simp [hk] at h
      rcases h with h | h
      · exact Or.inl h
      · exact Or.inr (List.mem_cons_of_mem _ h)
    · simp [hk] at h
      rcases h with h | h
      · exact Or.inr (List.mem_cons.2 (Or.inl h))
      · rcases ih h with h' | h'
        · exact Or.inl h'
        · exact Or.inr (List.mem_cons_of_mem _ h')

theorem mem_dkeys_dinsert [DecidableEq α] {a k : α} {v : β} :
    ∀ {l : List (α × β)}, a ∈ dkeys (dinsert k v l) ↔ a = k ∨ a ∈ dkeys l := by
  intro l
  induction l with
  | nil => simp [dinsert, dkeys]
  | cons q rest ih =>
    obtain ⟨k', v'⟩ := q
    by_cases hk : k' = k
    · subst hk
      simp [dinsert, dkeys]
    · simp [dinsert, hk, dkeys] at ih ⊢
      rw [ih]
      constructor
      · rintro (h | h | h) <;> simp [h]
      · rintro (h | h | h) <;> simp [h]

theorem dkeys_subset_dinsert [DecidableEq α] {k : α} {v : β} {l : List (α × β)} :
    dkeys l ⊆ dkeys (dinsert k v l) := by
  intro a ha
  exact mem_dkeys_dinsert.2 (Or.inr ha)

theorem self_mem_dkeys_dinsert [DecidableEq α] {k : α} {v : β} {l : List (α × β)} :
    k ∈ dkeys (dinsert k v l) :=
  mem_dkeys_dinsert.2 (Or.inl rfl)

theorem dinsert_of_lookup_none [DecidableEq α] {k : α} {v : β} :
    ∀ {l : List (α × β)}, dlookup k l = none → dinsert k v l = l ++ [(k, v)] := by
  intro l
  induction l with
  | nil => intro _; simp [dinsert]
  | cons q rest ih =>
    obtain ⟨k', v'⟩ := q
    intro h
    simp only [dlookup] at h
    by_cases hk : k' = k
    · simp [hk] at h
    · rw [if_neg hk] at h
      simp [dinsert, hk, ih h]

theorem dlookup_dinsert_self [DecidableEq α] {k : α} {v : β} :
    ∀ {l : List (α × β)}, dlookup k (dinsert k v l) = some v := by
  intro l
  induction l with
  | nil => simp [dinsert, dlookup]
  | cons q rest ih =>
    obtain ⟨k', v'⟩ := q
    by_cases hk : k' = k
    · simp [dinsert, hk, dlookup]
    · simp [dinsert, hk, dlookup, ih]

/-! ## Basic lemmas: fallible folds -/

theorem ofoldl_induct {f : σ → α → Option σ} {P : σ → Prop} :
    ∀ {l : List α} {s t : σ}, ofoldl f s l = some t → P s →
      (∀ s₁ a s₂, a ∈ l → P s₁ → f s₁ a = some s₂ → P s₂) → P t := by
  intro l
  induction l with
  | nil => intro s t h hs _; simp [ofoldl] at h; exact h ▸ hs
  | cons a as ih =>
    intro s t h hs hstep
    simp only [ofoldl] at h
    cases hf : f s a with
    | none => rw [hf] at h; exact absurd h (by simp)
    | some s' =>
      rw [hf] at h
      exact ih h (hstep s a s' (List.mem_cons_self a as) hs hf)
        (fun s₁ b s₂ hb => hstep s₁ b s₂ (List.mem_cons_of_mem _ hb))

theorem ofoldl_none {f : σ → α → Option σ} {a : α} :
    ∀ {l : List α}, a ∈ l → (∀ s, f s a = none) → ∀ s, ofoldl f s l = none := by
  intro l
  induction l with
  | nil => intro h; simp at h
  | cons b bs ih =>
    intro hm hf s
    simp only [ofoldl]
    rcases List.mem_cons.1 hm with h | h
    · subst h; rw [hf s]
    · cases hb : f s b with
      | none => rfl
      | some s' => exact ih h hf s'

/-! ## Basic lemmas: join and split -/

theorem splitChars_ne_nil : ∀ cs : List Char, splitChars cs ≠ [] := by
  intro cs
  induction cs with
  | nil => simp [splitChars]
  | cons c rest ih =>
    simp only [splitChars]
    by_cases hc : c = ' '
    · simp [hc]
    · simp only [if_neg hc]
      cases h : splitChars rest with
      | nil => exact absurd h ih
      | cons w ws => simp

theorem splitChars_no_space :
    ∀ {cs : List Char}, (∀ c ∈ cs, c ≠ ' ') → splitChars cs = [cs] := by
  intro cs
  induction cs with
  | nil => intro _; simp [splitChars]
  | cons c rest ih =>
    intro h
    have hc : c ≠ ' ' := h c (List.mem_cons_self c rest)
    have hrest := ih (fun d hd => h d (List.mem_cons_of_mem _ hd))
    simp [splitChars, hc, hrest]

theorem splitChars_append_space {w t : List Char} (hw : ' ' ∉ w) :
    splitChars (w ++ ' ' :: t) = w :: splitChars t := by
  induction w with
  | nil => simp [splitChars]
  | cons c cs ih =>
    have hc : c ≠ ' ' := by
      intro h; exact hw (h ▸ List.mem_cons_self c cs)
    have ih' := ih (fun h => hw (List.mem_cons_of_mem _ h))
    show splitChars (c :: (cs ++ ' ' :: t)) = (c :: cs) :: splitChars t
    simp only [splitChars, if_neg hc]
    rw [ih']

theorem splitChars_joinChars :
    ∀ {wss : List (List Char)}, wss ≠ [] → (∀ w ∈ wss, ' ' ∉ w) →
      splitChars (joinChars wss) = wss := by
  intro wss
  induction wss with
  | nil => intro h; exact absurd rfl h
  | cons w ws ih =>
    intro _ hsp
    cases ws with
    | nil =>
      simp only [joinChars]
      exact splitChars_no_space (fun c hc he =>
        hsp w (List.mem_cons_self _ _) (he ▸ hc))
    | cons w' ws' =>
      have hjoin : joinChars (w :: w' :: ws') = w ++ ' ' :: joinChars (w' :: ws') := rfl
      rw [hjoin, splitChars_append_space (hsp w (List.mem_cons_self _ _)),
          ih (by simp) (fun u hu => hsp u (List.mem_cons_of_mem _ hu))]

theorem pySplit_pyJoin {ws : List String} (hne : ws ≠ [])
    (hsp : ∀ w ∈ ws, ' ' ∉ w.data) : pySplit (pyJoin ws) = ws := by
  have hmap : ∀ w ∈ ws.map String.data, ' ' ∉ w := by
    intro w hw
    rcases List.mem_map.1 hw with ⟨s, hs, rfl⟩
    exact hsp s hs
  have hne' : ws.map String.data ≠ [] := by
    simpa using hne
  show (splitChars (joinChars (ws.map String.data))).map String.mk = ws
  rw [splitChars_joinChars hne' hmap, List.map_map]
  have : (String.mk ∘ String.data) = id := by
    funext s; cases s; rfl
  simp [this]

theorem length_pySplit_pyJoin {ws : List String} (hne : ws ≠ [])
    (hsp : ∀ w ∈ ws, ' ' ∉ w.data) : (pySplit (pyJoin ws)).length = ws.length := by
  rw [pySplit_pyJoin hne hsp]

/-! ## Basic lemmas: sorting and minima -/

theorem sinsert_perm (f : α → Nat) (a : α) :
    ∀ l : List α, (sinsert f a l).Perm (a :: l) := by
  intro l
  induction l with
  | nil => simp [sinsert]
  | cons b bs ih =>
    simp only [sinsert]
    by_cases h : f b ≤ f a
    · rw [if_pos h]
      exact (List.Perm.cons b ih).trans (List.Perm.swap a b bs)
    · rw [if_neg h]

theorem pySortBy_perm (f : α → Nat) :
    ∀ l : List α, (pySortBy f l).Perm l := by
  intro l
  induction l with
  | nil => simp [pySortBy]
  | cons a as ih =>
    simp only [pySortBy]
    exact (sinsert_perm f a (pySortBy f as)).trans (List.Perm.cons a ih)

theorem mem_pySortBy {f : α → Nat} {a : α} {l : List α} :
    a ∈ pySortBy f l ↔ a ∈ l :=
  (pySortBy_perm f l).mem_iff

theorem length_pySortBy (f : α → Nat) (l : List α) :
    (pySortBy f l).length = l.length :=
  (pySortBy_perm f l).length_eq

theorem sinsert_pairwise {f : α → Nat} {a : α} :
    ∀ {l : List α}, l.Pairwise (fun x y => f x ≤ f y) →
      (sinsert f a l).Pairwise (fun x y => f x ≤ f y) := by
  intro l
  induction l with
  | nil => intro _; simp [sinsert]
  | cons b bs ih =>
    intro h
    rcases List.pairwise_cons.1 h with ⟨hb, hbs⟩
    simp only [sinsert]
    by_cases hle : f b ≤ f a
    · rw [if_pos hle]
      refine List.pairwise_cons.2 ⟨?_, ih hbs⟩
      intro x hx
      rcases List.mem_cons.1 ((sinsert_perm f a bs).mem_iff.1 hx) with hx' | hx'
      · rw [hx']; exact hle
      · exact hb x hx'
    · rw [if_neg hle]
      refine List.pairwise_cons.2 ⟨?_, h⟩
      intro x hx
      rcases List.mem_cons.1 hx with hx' | hx'
      · rw [hx']; exact Nat.le_of_not_le hle
      · exact Nat.le_trans (Nat.le_of_not_le hle) (hb x hx')

theorem pySortBy_pairwise (f : α → Nat) :
    ∀ l : List α, (pySortBy f l).Pairwise (fun x y => f x ≤ f y) := by
  intro l
  induction l with
  | nil => simp [pySortBy]
  | cons a as ih => exact sinsert_pairwise ih

theorem pyMin_eq_none_iff {f : α → Nat} {l : List α} :
    pyMin f l = none ↔ l = [] := by
  cases l <;> simp [pyMin]

theorem foldl_pick_mem {f : α → Nat} :
    ∀ (xs : List α) (x : α),
      xs.foldl (fun b a => if f a < f b then a else b) x = x ∨
      xs.foldl (fun b a => if f a < f b then a else b) x ∈ xs := by
  intro xs
  induction xs with
  | nil => intro x; simp
  | cons b bs ih =>
    intro x
    simp only [List.foldl_cons]
    rcases ih (if f b < f x then b else x) with h | h
    · rw [h]
      by_cases hb : f b < f x
      · simp [hb]
      · simp [hb]
    · exact Or.inr (List.mem_cons_of_mem _ h)

theorem foldl_pick_le {f : α → Nat} :
    ∀ (xs : List α) (x : α),
      f (xs.foldl (fun b a => if f a < f b then a else b) x) ≤ f x ∧
      ∀ c ∈ xs, f (xs.foldl (fun b a => if f a < f b then a else b) x) ≤ f c := by
  intro xs
  induction xs with
  | nil => intro x; simp
  | cons y ys ih =>
    intro x
    simp only [List.foldl_cons]
    obtain ⟨h1, h2⟩ := ih (if f y < f x then y else x)
    have hx : f (if f y < f x then y else x) ≤ f x := by
      by_cases hy : f y < f x
      · simp only [if_pos hy]; exact Nat.le_of_lt hy
      · simp only [if_neg hy]; exact Nat.le_refl _
    have hy' : f (if f y < f x then y else x) ≤ f y := by
      by_cases hy : f y < f x
      · simp only [if_pos hy]; exact Nat.le_refl _
      · simp only [if_neg hy]; exact Nat.le_of_not_lt hy
    refine ⟨Nat.le_trans h1 hx, ?_⟩
    intro c hc
    rcases List.mem_cons.1 hc with hc' | hc'
    · rw [hc']; exact Nat.le_trans h1 hy'
    · exact h2 c hc'

theorem pyMin_mem {f : α → Nat} {l : List α} {a : α} (h : pyMin f l = some a) :
    a ∈ l := by
  cases l with
  | nil => simp [pyMin] at h
  | cons x xs =>
    simp only [pyMin, Option.some.injEq] at h
    rw [← h]
    rcases foldl_pick_mem xs x with h' | h'
    · rw [h']; exact List.mem_cons_self x xs
    · exact List.mem_cons_of_mem _ h'

theorem pyMin_le {f : α → Nat} {l : List α} {a : α} (h : pyMin f l = some a) :
    ∀ b ∈ l, f a ≤ f b := by
  cases l with
  | nil => simp [pyMin] at h
  | cons x xs =>
    simp only [pyMin, Option.some.injEq] at h
    rw [← h]
    obtain ⟨h1, h2⟩ := foldl_pick_le xs x
    intro b hb
    rcases List.mem_cons.1 hb with h' | h'
    · rw [h']; exact h1
    · exact h2 b h'

theorem foldl_max_choice :
    ∀ (l : List Nat) (a : Nat), l.foldl max a = a ∨ l.foldl max a ∈ l := by
  intro l
  induction l with
  | nil => intro a; simp
  | cons b bs ih =>
    intro a
    simp only [List.foldl_cons]
    rcases ih (max a b) with h | h
    · rw [h]
      rcases max_choice a b with h' | h'
      · rw [h']; exact Or.inl rfl
      · rw [h']; exact Or.inr (List.mem_cons_self b bs)
    · exact Or.inr (List.mem_cons_of_mem _ h)

theorem le_foldl_max :
    ∀ (l : List Nat) (a : Nat), a ≤ l.foldl max a ∧ ∀ i ∈ l, i ≤ l.foldl max a := by
  intro l
  induction l with
  | nil => intro a; simp
  | cons b bs ih =>
    intro a
    simp only [List.foldl_cons]
    obtain ⟨h1, h2⟩ := ih (max a b)
    refine ⟨Nat.le_trans (Nat.le_max_left a b) h1, ?_⟩
    intro i hi
    rcases List.mem_cons.1 hi with hi' | hi'
    · rw [hi']; exact Nat.le_trans (Nat.le_max_right a b) h1
    · exact h2 i hi'

theorem foldl_min_choice :
    ∀ (l : List Nat) (a : Nat), l.foldl min a = a ∨ l.foldl min a ∈ l := by
  intro l
  induction l with
  | nil => intro a; simp
  | cons b bs ih =>
    intro a
    simp only [List.foldl_cons]
    rcases ih (min a b) with h | h
    · rw [h]
      rcases min_choice a b with h' | h'
      · rw [h']; exact Or.inl rfl
      · rw [h']; exact Or.inr (List.mem_cons_self b bs)
    · exact Or.inr (List.mem_cons_of_mem _ h)

theorem foldl_min_le :
    ∀ (l : List Nat) (a : Nat), l.foldl min a ≤ a ∧ ∀ i ∈ l, l.foldl min a ≤ i := by
  intro l
  induction l with
  | nil => intro a; simp
  | cons b bs ih =>
    intro a
    simp only [List.foldl_cons]
    obtain ⟨h1, h2⟩ := ih (min a b)
    refine ⟨Nat.le_trans h1 (Nat.min_le_left a b), ?_⟩
    intro i hi
    rcases List.mem_cons.1 hi with hi' | hi'
    · rw [hi']; exact Nat.le_trans h1 (Nat.min_le_right a b)
    · exact h2 i hi'

/-! ## Symbol-table lemmas -/

theorem dlookup_append_none [DecidableEq α] {k : α} {l₁ l₂ : List (α × β)}
    (h : dlookup k l₁ = none) : dlookup k (l₁ ++ l₂) = dlookup k l₂ := by
  induction l₁ with
  | nil => simp
  | cons p rest ih =>
    obtain ⟨k', v'⟩ := p
    simp only [dlookup] at h ⊢
    by_cases hk : k' = k
    · simp [hk] at h
    · rw [if_neg hk] at h ⊢
      exact ih h

theorem symOk_counters {st st' : PState}
    (he : st.ent_counter = st'.ent_counter)
    (hp : st.pred_counter = st'.pred_counter) {s : Sym} (h : symOk st s) :
    symOk st' s := by
  cases s <;> simp [symOk] at h ⊢ <;> omega

theorem symOk_mono {st st' : PState} (he : st.ent_counter ≤ st'.ent_counter)
    (hp : st.pred_counter ≤ st'.pred_counter) {s : Sym} (h : symOk st s) :
    symOk st' s := by
  cases s <;> simp [symOk] at h ⊢ <;> omega

theorem genSpec_ent : GenSpec gensym_ent isEntitySym := by
  intro st
  refine ⟨rfl, rfl, rfl, Nat.le_succ _, Nat.le_refl _, ?_, rfl, ?_⟩
  · simp [gensym_ent, symOk]
  · intro s₀ h
    cases s₀ with
    | A i =>
      simp [symOk, gensym_ent] at h ⊢
      omega
    | P i =>
      simp [symOk, gensym_ent] at h ⊢
      exact h

theorem genSpec_pred : GenSpec gensym_pred (fun s => !isEntitySym s) := by
  intro st
  refine ⟨rfl, rfl, rfl, Nat.le_refl _, Nat.le_succ _, ?_, rfl, ?_⟩
  · simp [gensym_pred, symOk]
  · intro s₀ h
    cases s₀ with
    | A i =>
      simp [symOk, gensym_pred] at h ⊢
      exact h
    | P i =>
      simp [symOk, gensym_pred] at h ⊢
      omega

theorem symtabStep_refl (st : PState) : symtabStep st st :=
  ⟨List.prefix_refl _, Nat.le_refl _, Nat.le_refl _⟩

theorem symtabStep_trans {s₁ s₂ s₃ : PState} (h₁ : symtabStep s₁ s₂)
    (h₂ : symtabStep s₂ s₃) : symtabStep s₁ s₃ :=
  ⟨h₁.1.trans h₂.1, Nat.le_trans h₁.2.1 h₂.2.1, Nat.le_trans h₁.2.2 h₂.2.2⟩

theorem symtabStep_mem {st st' : PState} (h : symtabStep st st')
    {p : Nat × Sym} (hp : p ∈ st.tok_ind_to_symbol) :
    p ∈ st'.tok_ind_to_symbol :=
  h.1.subset hp

/-- A `get_element_symbol` call on an already-bound index is a pure lookup. -/
theorem ges_of_lookup {gen : PState → Sym × PState} {st : PState} {i : Nat}
    {s : Sym} (h : dlookup i st.tok_ind_to_symbol = some s) :
    get_element_symbol st i gen = (s, st) := by
  simp [get_element_symbol, h]

/-- Full description of one `get_element_symbol` call under a generator
specification. -/
theorem ges_spec {gen : PState → Sym × PState} {K : Sym → Bool}
    (hg : GenSpec gen K) (st : PState) (i : Nat) (hok : symtabOk st) :
    (get_element_symbol st i gen).2.entities = st.entities ∧
    (get_element_symbol st i gen).2.predicates = st.predicates ∧
    symtabStep st (get_element_symbol st i gen).2 ∧
    symtabOk (get_element_symbol st i gen).2 ∧
    dlookup i (get_element_symbol st i gen).2.tok_ind_to_symbol =
      some (get_element_symbol st i gen).1 ∧
    (dlookup i st.tok_ind_to_symbol = some (get_element_symbol st i gen).1 ∨
      (dlookup i st.tok_ind_to_symbol = none ∧
       K (get_element_symbol st i gen).1 = true)) ∧
    (∀ p ∈ (get_element_symbol st i gen).2.tok_ind_to_symbol,
      p ∈ st.tok_ind_to_symbol ∨
      (p = (i, (get_element_symbol st i gen).1) ∧
       K (get_element_symbol st i gen).1 = true)) := by
  obtain ⟨hok1, hok2, hok3⟩ := hok
  cases hl : dlookup i st.tok_ind_to_symbol with
  | some s =>
    have hres : get_element_symbol st i gen = (s, st) := ges_of_lookup hl
    rw [hres]
    refine ⟨rfl, rfl, symtabStep_refl st, ⟨hok1, hok2, hok3⟩, ?_, ?_,
      fun p hp => Or.inl hp⟩
    · exact hl
    · exact Or.inl rfl
  | none =>
    obtain ⟨hgent, hgpred, hgtab, hgel, hgpl, hgok, hgK, hgfresh⟩ := hg st
    have hkey : i ∉ dkeys st.tok_ind_to_symbol := dlookup_eq_none_iff.1 hl
    have hres : get_element_symbol st i gen =
        ((gen st).1, { (gen st).2 with tok_ind_to_symbol :=
          (dinsert i (gen st).1 (gen st).2.tok_ind_to_symbol) }) := by
      simp [get_element_symbol, hl]
    have htab : dinsert i (gen st).1 (gen st).2.tok_ind_to_symbol =
        st.tok_ind_to_symbol ++ [(i, (gen st).1)] := by
      rw [hgtab]; exact dinsert_of_lookup_none hl
    rw [hres]
    refine ⟨hgent, hgpred, ?_, ?_, ?_, Or.inr ⟨rfl, hgK⟩, ?_⟩
    · refine ⟨?_, hgel, hgpl⟩
      show st.tok_ind_to_symbol <+: dinsert i (gen st).1 (gen st).2.tok_ind_to_symbol
      rw [htab]
      exact List.prefix_append _ _
    · refine ⟨?_, ?_, ?_⟩
      · intro p hp
        simp only [htab, List.mem_append, List.mem_singleton] at hp
        rcases hp with hp | hp
        · exact symOk_counters rfl rfl ((hgfresh p.2 (hok1 p hp)).1)
        · rw [hp]
          exact symOk_counters rfl rfl hgok
      · show (dkeys (dinsert i (gen st).1 (gen st).2.tok_ind_to_symbol)).Nodup
        rw [htab]
        simp only [dkeys, List.map_append]
        refine (List.Nodup.append hok2 (by simp) ?_)
        intro a ha hb
        simp at hb
        exact hkey (hb ▸ ha)
      · show ((dinsert i (gen st).1 (gen st).2.tok_ind_to_symbol).map Prod.snd).Nodup
        rw [htab]
        simp only [List.map_append]
        refine (List.Nodup.append hok3 (by simp) ?_)
        intro a ha hb
        simp at hb
        subst hb
        rcases List.mem_map.1 ha with ⟨p, hp, hps⟩
        exact (hgfresh p.2 (hok1 p hp)).2 hps
    · show dlookup i (dinsert i (gen st).1 (gen st).2.tok_ind_to_symbol) =
        some (gen st).1
      exact dlookup_dinsert_self
    · intro p hp
      show p ∈ st.tok_ind_to_symbol ∨ (p = (i, (gen st).1) ∧ K (gen st).1 = true)
      have hp' : p ∈ dinsert i (gen st).1 (gen st).2.tok_ind_to_symbol := hp
      rw [htab] at hp'
      rcases List.mem_append.1 hp' with h | h
      · exact Or.inl h
      · simp at h
        exact Or.inr ⟨h, hgK⟩

theorem dlookup_of_symtabStep {st st' : PState} (hstep : symtabStep st st')
    (hok' : symtabOk st') {k : Nat} {s : Sym}
    (h : dlookup k st.tok_ind_to_symbol = some s) :
    dlookup k st'.tok_ind_to_symbol = some s :=
  dlookup_of_mem_nodup hok'.2.1 (hstep.1.subset (dlookup_mem h))

/-- The inverse symbol lookup of `_split_entities` recovers the binding index
when the symbol values are duplicate-free. -/
theorem ent_symbol_to_head_ind_of_mem {symtab : List (Nat × Sym)} {k : Nat}
    {s : Sym} (hnd : (symtab.map Prod.snd).Nodup) (hm : (k, s) ∈ symtab) :
    ent_symbol_to_head_ind symtab s = some k := by
  have hmem : (k, s) ∈ symtab.reverse := List.mem_reverse.2 hm
  have hsat : ((k, s).2 == s) = true := by simp
  have hisSome : (symtab.reverse.find? (fun p => p.2 == s)).isSome := by
    rw [List.find?_isSome]
    exact ⟨(k, s), hmem, hsat⟩
  obtain ⟨x, hx⟩ := Option.isSome_iff_exists.1 hisSome
  have hxmem : x ∈ symtab := List.mem_reverse.1 (List.mem_of_find?_eq_some hx)
  have hxsat : x.2 = s := by
    have := List.find?_some hx
    simpa using this
  have hxeq : x = (k, s) :=
    List.inj_on_of_nodup_map hnd hxmem hm (by simp [hxsat])
  simp only [ent_symbol_to_head_ind, lastFind?, hx, hxeq, Option.map_some']

/-- `mapSyms` under a generator specification: state bookkeeping, produced
symbols, and classification of new bindings. -/
theorem mapSyms_spec {gen : PState → Sym × PState} {K : Sym → Bool}
    (hg : GenSpec gen K) :
    ∀ {ns : List PropsNode} {st : PState}, symtabOk st →
      (mapSyms gen st ns).2.entities = st.entities ∧
      (mapSyms gen st ns).2.predicates = st.predicates ∧
      symtabStep st (mapSyms gen st ns).2 ∧
      symtabOk (mapSyms gen st ns).2 ∧
      (mapSyms gen st ns).1.length = ns.length ∧
      (∀ pr ∈ ns.zip (mapSyms gen st ns).1,
        (get_node_ind pr.1, pr.2) ∈ (mapSyms gen st ns).2.tok_ind_to_symbol) ∧
      (∀ s ∈ (mapSyms gen st ns).1,
        K s = true ∨ ∃ k, (k, s) ∈ st.tok_ind_to_symbol) ∧
      (∀ p ∈ (mapSyms gen st ns).2.tok_ind_to_symbol,
        p ∈ st.tok_ind_to_symbol ∨ (K p.2 = true ∧ p.2 ∈ (mapSyms gen st ns).1)) := by
  intro ns
  induction ns with
  | nil =>
    intro st hok
    refine ⟨rfl, rfl, symtabStep_refl st, hok, rfl, ?_, ?_, ?_⟩
    · intro pr hpr; simp [mapSyms] at hpr
    · intro s hs; simp [mapSyms] at hs
    · intro p hp
      simp only [mapSyms] at hp
      exact Or.inl hp
  | cons n rest ih =>
    intro st hok
    obtain ⟨g1, g2, g3, g4, g5, g6, g7⟩ :=
      ges_spec hg st (get_node_ind n) hok
    obtain ⟨i1, i2, i3, i4, i5, i6, i7, i8⟩ :=
      ih g4
    have hunf : mapSyms gen st (n :: rest) =
        ((get_element_symbol st (get_node_ind n) gen).1 ::
          (mapSyms gen (get_element_symbol st (get_node_ind n) gen).2 rest).1,
         (mapSyms gen (get_element_symbol st (get_node_ind n) gen).2 rest).2) := rfl
    rw [hunf]
    refine ⟨by rw [i1, g1], by rw [i2, g2], symtabStep_trans g3 i3, i4, by simp [i5], ?_, ?_, ?_⟩
    · intro pr hpr
      simp only [List.zip_cons_cons, List.mem_cons] at hpr
      rcases hpr with hpr | hpr
      · rw [hpr]
        exact symtabStep_mem i3 (dlookup_mem g5)
      · exact i6 pr hpr
    · intro s hs
      simp only [List.mem_cons] at hs
      rcases hs with hs | hs
      · subst hs
        rcases g6 with h | h
        · exact Or.inr ⟨get_node_ind n, dlookup_mem h⟩
        · exact Or.inl h.2
      · rcases i7 s hs with h | h
        · exact Or.inl h
        · obtain ⟨k, hk⟩ := h
          rcases g7 (k, s) hk with h' | h'
          · exact Or.inr ⟨k, h'⟩
          · have hs2 : s = (get_element_symbol st (get_node_ind n) gen).1 := by
              have := congrArg Prod.snd h'.1
              simpa using this
            exact Or.inl (hs2 ▸ h'.2)
    · intro p hp
      rcases i8 p hp with h | h
      · rcases g7 p h with h' | h'
        · exact Or.inl h'
        · refine Or.inr ⟨?_, ?_⟩
          · rw [h'.1]; exact h'.2
          · rw [h'.1]; exact List.mem_cons_self _ _
      · exact Or.inr ⟨h.1, List.mem_cons_of_mem _ h.2⟩

/-- `mapSyms` over indices that are all bound is a pure lookup pass. -/
theorem mapSyms_of_lookup {gen : PState → Sym × PState} :
    ∀ {ns : List PropsNode} {σ : List Sym} {st : PState},
      ns.length = σ.length →
      (∀ pr ∈ ns.zip σ, dlookup (get_node_ind pr.1) st.tok_ind_to_symbol = some pr.2) →
      mapSyms gen st ns = (σ, st) := by
  intro ns
  induction ns with
  | nil =>
    intro σ st hlen _
    cases σ with
    | nil => rfl
    | cons s ss => simp at hlen
  | cons n rest ih =>
    intro σ st hlen hl
    cases σ with
    | nil => simp at hlen
    | cons s ss =>
      have h0 : dlookup (get_node_ind n) st.tok_ind_to_symbol = some s :=
        hl (n, s) (by simp)
      have hges : get_element_symbol st (get_node_ind n) gen = (s, st) :=
        ges_of_lookup h0
      have hrest : mapSyms gen st rest = (ss, st) := by
        refine ih (by simpa using hlen) ?_
        intro pr hpr
        exact hl pr (List.mem_cons_of_mem _ hpr)
      show (let p := get_element_symbol st (get_node_ind n) gen
            let q := mapSyms gen p.2 rest
            (p.1 :: q.1, q.2)) = (s :: ss, st)
      rw [hges]
      simp only []
      rw [hrest]

/-- Re-running `mapSyms` over the same nodes is the identity (memoization). -/
theorem mapSyms_rerun {gen : PState → Sym × PState} {K : Sym → Bool}
    (hg : GenSpec gen K) {ns : List PropsNode} {st : PState}
    (hok : symtabOk st) :
    mapSyms gen (mapSyms gen st ns).2 ns =
      ((mapSyms gen st ns).1, (mapSyms gen st ns).2) := by
  obtain ⟨_, _, _, hok', hlen, hpairs, _, _⟩ := @mapSyms_spec gen K hg ns st hok
  refine mapSyms_of_lookup hlen.symm ?_
  intro pr hpr
  exact dlookup_of_mem_nodup hok'.2.1 (hpairs pr hpr)

/-! ## Predicate-extraction phase lemmas -/

theorem symtabOk_congr {a b : PState} (ht : a.tok_ind_to_symbol = b.tok_ind_to_symbol)
    (he : a.ent_counter = b.ent_counter) (hp : a.pred_counter = b.pred_counter)
    (h : symtabOk b) : symtabOk a := by
  obtain ⟨h1, h2, h3⟩ := h
  refine ⟨?_, by rw [ht]; exact h2, by rw [ht]; exact h3⟩
  intro p hpm
  rw [ht] at hpm
  exact symOk_counters he.symm hp.symm (h1 p hpm)

theorem symtabStep_congr {a b : PState} (ht : a.tok_ind_to_symbol = b.tok_ind_to_symbol)
    (he : a.ent_counter = b.ent_counter) (hp : a.pred_counter = b.pred_counter) :
    symtabStep a b :=
  ⟨ht ▸ List.prefix_refl _, Nat.le_of_eq he, Nat.le_of_eq hp⟩

theorem WfEnts_mono {a b : PState} (h : WfEnts a) (hent : b.entities = a.entities)
    (hsub : ∀ p ∈ a.tok_ind_to_symbol, p ∈ b.tok_ind_to_symbol) : WfEnts b := by
  intro e he
  rw [hent] at he
  obtain ⟨k, hk, h1, h2, h3⟩ := h e he
  exact ⟨k, hsub _ hk, h1, h2, h3⟩

theorem get_node_ind_mem_text {n : PropsNode} (h : n.text ≠ []) :
    get_node_ind n ∈ n.text.map Word.index := by
  cases htext : n.text with
  | nil => exact absurd htext h
  | cons w ws =>
    simp only [get_node_ind, htext]
    by_cases hp : n.isPredicate
    · rw [if_pos hp]
      rcases foldl_min_choice (ws.map Word.index) w.index with h' | h'
      · rw [h']; simp
      · simp only [List.map_cons, List.mem_cons]
        exact Or.inr h'
    · rw [if_neg hp]
      rcases foldl_max_choice (ws.map Word.index) w.index with h' | h'
      · rw [h']; simp
      · simp only [List.map_cons, List.mem_cons]
        exact Or.inr h'

theorem wfNode_strWords_ne_nil {n : PropsNode} (hwf : WfNode n) :
    n.strWords ≠ [] := by
  obtain ⟨hne, hsub, _⟩ := hwf
  cases htext : n.text with
  | nil => exact absurd htext hne
  | cons w ws =>
    obtain ⟨v, hv, _⟩ := hsub w (htext ▸ List.mem_cons_self w ws)
    intro hnil
    rw [hnil] at hv
    simp at hv

theorem wfNode_head_facts {n : PropsNode} (hwf : WfNode n) :
    1 ≤ get_node_ind n ∧
    (get_node_ind n - 1) ∈ (props_entity_record n).2 := by
  obtain ⟨hne, hsub, hwords⟩ := hwf
  have hmem := get_node_ind_mem_text hne
  rcases List.mem_map.1 hmem with ⟨w, hw, hwi⟩
  obtain ⟨v, hv, hvi⟩ := hsub w hw
  have hv1 : 1 ≤ v.index := (hwords v hv).1
  have hki : v.index = get_node_ind n := by rw [hvi, hwi]
  constructor
  · rw [← hki]; exact hv1
  · show (get_node_ind n - 1) ∈ (pySortBy Word.index n.strWords.dedup).map
      (fun w => w.index - 1)
    refine List.mem_map.2 ⟨v, ?_, by rw [hki]⟩
    exact mem_pySortBy.2 (List.mem_dedup.2 hv)

theorem props_entity_record_len {n : PropsNode} (hwf : WfNode n) :
    (pySplit (props_entity_record n).1).length = (props_entity_record n).2.length := by
  have hne : pySortBy Word.index n.strWords.dedup ≠ [] := by
    have h0 := wfNode_strWords_ne_nil hwf
    intro h
    have hlen := length_pySortBy Word.index n.strWords.dedup
    rw [h] at hlen
    simp at hlen
    have hd : n.strWords.dedup = [] := List.length_eq_zero.1 hlen.symm
    rw [List.dedup_eq_nil] at hd
    exact h0 hd
  have hwne : (pySortBy Word.index n.strWords.dedup).map Word.word ≠ [] := by
    simpa using hne
  have hsp : ∀ w ∈ (pySortBy Word.index n.strWords.dedup).map Word.word,
      ' ' ∉ w.data := by
    intro w hw
    rcases List.mem_map.1 hw with ⟨v, hv, rfl⟩
    have hv' : v ∈ n.strWords := List.mem_dedup.1 (mem_pySortBy.1 hv)
    exact (hwf.2.2 v hv').2
  show (pySplit (pyJoin ((pySortBy Word.index n.strWords.dedup).map Word.word))).length =
    ((pySortBy Word.index n.strWords.dedup).map (fun w => w.index - 1)).length
  rw [pySplit_pyJoin hwne hsp]
  simp

theorem rawNeighbors_subset {g : List PropsNode} {n : PropsNode} :
    ∀ x ∈ rawNeighbors g n, x ∈ g := by
  intro x hx
  simp only [rawNeighbors, List.mem_flatMap] at hx
  obtain ⟨p, _, hx⟩ := hx
  rcases List.mem_filterMap.1 hx with ⟨i, _, hfind⟩
  exact List.mem_of_find?_eq_some hfind

theorem get_props_neighbors_subset {g : List PropsNode} :
    ∀ (fuel : Nat) (n : PropsNode), ∀ x ∈ get_props_neighbors g fuel n, x ∈ g := by
  intro fuel
  induction fuel with
  | zero => intro n x hx; simp [get_props_neighbors] at hx
  | succ fuel ih =>
    intro n x hx
    simp only [get_props_neighbors] at hx
    rcases List.mem_dedup.1 hx with hx'
    rcases List.mem_append.1 hx' with h | h
    · exact rawNeighbors_subset x (List.mem_filter.1 h).1
    · rcases List.mem_flatMap.1 h with ⟨m, _, hm⟩
      exact ih m x hm

/-- `add_props_entity` under the symbol-table invariant. -/
theorem add_props_entity_spec {st : PState} {n : PropsNode} (hok : symtabOk st) :
    symtabStep st (add_props_entity st n) ∧
    symtabOk (add_props_entity st n) ∧
    (add_props_entity st n).predicates = st.predicates ∧
    (add_props_entity st n).entities =
      dinsert (get_element_symbol st (get_node_ind n) gensym_ent).1
        (props_entity_record n) st.entities ∧
    dlookup (get_node_ind n) (add_props_entity st n).tok_ind_to_symbol =
      some (get_element_symbol st (get_node_ind n) gensym_ent).1 ∧
    (add_props_entity st n).tok_ind_to_symbol =
      (get_element_symbol st (get_node_ind n) gensym_ent).2.tok_ind_to_symbol := by
  obtain ⟨g1, g2, g3, g4, g5, _, _⟩ := ges_spec genSpec_ent st (get_node_ind n) hok
  refine ⟨?_, ?_, ?_, ?_, g5, rfl⟩
  · exact symtabStep_trans g3 (symtabStep_congr rfl rfl rfl)
  · exact symtabOk_congr rfl rfl rfl g4
  · show (get_element_symbol st (get_node_ind n) gensym_ent).2.predicates = st.predicates
    exact g2
  · show dinsert (get_element_symbol st (get_node_ind n) gensym_ent).1
        (props_entity_record n)
        (get_element_symbol st (get_node_ind n) gensym_ent).2.entities = _
    rw [g1]

/-- The entity-registration loop over already-bound entity nodes. -/
theorem addEntitiesFor_spec :
    ∀ {ns : List PropsNode} {σ : List Sym} {st : PState}, symtabOk st →
      ns.length = σ.length →
      (∀ pr ∈ ns.zip σ, dlookup (get_node_ind pr.1) st.tok_ind_to_symbol = some pr.2) →
      (∀ n ∈ ns, WfNode n) →
      (addEntitiesFor st ns).tok_ind_to_symbol = st.tok_ind_to_symbol ∧
      (addEntitiesFor st ns).pred_counter = st.pred_counter ∧
      (addEntitiesFor st ns).ent_counter = st.ent_counter ∧
      (addEntitiesFor st ns).predicates = st.predicates ∧
      dkeys st.entities ⊆ dkeys (addEntitiesFor st ns).entities ∧
      (∀ s ∈ σ, s ∈ dkeys (addEntitiesFor st ns).entities) ∧
      (WfEnts st → WfEnts (addEntitiesFor st ns)) := by
  intro ns
  induction ns with
  | nil =>
    intro σ st _ hlen _ _
    cases σ with
    | nil =>
      refine ⟨rfl, rfl, rfl, rfl, fun a ha => ha, ?_, fun h => h⟩
      intro s hs; simp at hs
    | cons s ss => simp at hlen
  | cons n rest ih =>
    intro σ st hok hlen hl hwf
    cases σ with
    | nil => simp at hlen
    | cons s ss =>
      have h0 : dlookup (get_node_ind n) st.tok_ind_to_symbol = some s :=
        hl (n, s) (by simp)
      have hges : get_element_symbol st (get_node_ind n) gensym_ent = (s, st) :=
        ges_of_lookup h0
      have hstep : add_props_entity st n =
          { st with entities := dinsert s (props_entity_record n) st.entities } := by
        show (let p := get_element_symbol st (get_node_ind n) gensym_ent
              { p.2 with entities := dinsert p.1 (props_entity_record n) p.2.entities }) = _
        rw [hges]
      have hwfn : WfNode n := hwf n (List.mem_cons_self n rest)
      have hfold : addEntitiesFor st (n :: rest) =
          addEntitiesFor (add_props_entity st n) rest := rfl
      obtain ⟨i1, i2, i3, i4, i5, i6, i7⟩ :=
        @ih ss { st with entities := dinsert s (props_entity_record n) st.entities }
          (symtabOk_congr rfl rfl rfl hok) (by simpa using hlen)
          (fun pr hpr => hl pr (List.mem_cons_of_mem _ hpr))
          (fun m hm => hwf m (List.mem_cons_of_mem _ hm))
      rw [hfold, hstep]
      refine ⟨i1, i2, i3, i4, ?_, ?_, ?_⟩
      · intro a ha
        exact i5 (dkeys_subset_dinsert ha)
      · intro t ht
        rcases List.mem_cons.1 ht with ht' | ht'
        · subst ht'
          exact i5 self_mem_dkeys_dinsert
        · exact i6 t ht'
      · intro hwfe
        refine i7 ?_
        intro e he
        have he' : e ∈ dinsert s (props_entity_record n) st.entities := he
        rcases mem_dinsert he' with he'' | he''
        · subst he''
          refine ⟨get_node_ind n, dlookup_mem h0, ?_, ?_, ?_⟩
          · exact (wfNode_head_facts hwfn).1
          · exact (wfNode_head_facts hwfn).2
          · exact props_entity_record_len hwfn
        · obtain ⟨k, hk, hx1, hx2, hx3⟩ := hwfe e he''
          exact ⟨k, hk, hx1, hx2, hx3⟩

/-- The explicit result of a successful `parse_predicate` call: the two
memoized re-computations of the argument symbols collapse, so the stored
arguments are the entity symbols followed by the predicate symbols produced
while building the template. -/
theorem parse_predicate_eq {dt : List DepNode} {g pns : List PropsNode}
    {st : PState} {pn : PropsNode} {dep : DepNode}
    (hdep : get_dep_node dt pn = some dep) (hok : symtabOk st) :
    parse_predicate dt g pns st pn =
      some (addEntitiesFor
        { (mapSyms gensym_ent
            (mapSyms gensym_pred
              (get_element_symbol st (get_node_ind pn) gensym_pred).2
              ((get_props_neighbors g g.length pn).filter
                (fun n => pns.contains n))).2
            ((get_props_neighbors g g.length pn).filter
              (fun n => !pns.contains n && !n.isImplicit))).2 with
          predicates := (dinsert
            (get_element_symbol st (get_node_ind pn) gensym_pred).1
            { bare := BareP.words
                (pyJoin ((pySortBy DepNode.id
                  (dep :: (get_children dt dep).filter
                    (fun c => AUX_LABELS.contains c.parent_relation &&
                      !is_props_dependent g pn c.id))).map DepNode.word))
                ((pySortBy DepNode.id
                  (dep :: (get_children dt dep).filter
                    (fun c => AUX_LABELS.contains c.parent_relation &&
                      !is_props_dependent g pn c.id))).map (fun n => n.id - 1)),
              template := build_template
                ((dep :: (get_children dt dep).filter
                    (fun c => AUX_LABELS.contains c.parent_relation &&
                      !is_props_dependent g pn c.id)).map (fun n => (n.id, n.word)) ++
                 (((get_props_neighbors g g.length pn).filter
                     (fun n => pns.contains n)).zip
                   (mapSyms gensym_pred
                     (get_element_symbol st (get_node_ind pn) gensym_pred).2
                     ((get_props_neighbors g g.length pn).filter
                       (fun n => pns.contains n))).1).map
                   (fun p => (get_node_ind p.1, placeholder p.2)) ++
                 (((get_props_neighbors g g.length pn).filter
                     (fun n => !pns.contains n && !n.isImplicit)).zip
                   (mapSyms gensym_ent
                     (mapSyms gensym_pred
                       (get_element_symbol st (get_node_ind pn) gensym_pred).2
                       ((get_props_neighbors g g.length pn).filter
                         (fun n => pns.contains n))).2
                     ((get_props_neighbors g g.length pn).filter
                       (fun n => !pns.contains n && !n.isImplicit))).1).map
                   (fun p => (get_node_ind p.1, placeholder p.2))),
              head := { surface := dep.word, surfaceInds := some [dep.id - 1],
                        hlemma := pn.lemmaFeat.getD "", pos := dep.pos },
              arguments :=
                (mapSyms gensym_ent
                  (mapSyms gensym_pred
                    (get_element_symbol st (get_node_ind pn) gensym_pred).2
                    ((get_props_neighbors g g.length pn).filter
                      (fun n => pns.contains n))).2
                  ((get_props_neighbors g g.length pn).filter
                    (fun n => !pns.contains n && !n.isImplicit))).1 ++
                (mapSyms gensym_pred
                  (get_element_symbol st (get_node_ind pn) gensym_pred).2
                  ((get_props_neighbors g g.length pn).filter
                    (fun n => pns.contains n))).1 }
            (mapSyms gensym_ent
              (mapSyms gensym_pred
                (get_element_symbol st (get_node_ind pn) gensym_pred).2
                ((get_props_neighbors g g.length pn).filter
                  (fun n => pns.contains n))).2
              ((get_props_neighbors g g.length pn).filter
                (fun n => !pns.contains n && !n.isImplicit))).2.predicates) }
        ((get_props_neighbors g g.length pn).filter
          (fun n => !pns.contains n && !n.isImplicit))) := by
  obtain ⟨p1, p2, p3, p4, p5, p6, p7⟩ := ges_spec genSpec_pred st (get_node_ind pn) hok
  obtain ⟨m11, m12, m13, m14, m15, m16, m17, m18⟩ :=
    @mapSyms_spec gensym_pred (fun s => !isEntitySym s) genSpec_pred
      ((get_props_neighbors g g.length pn).filter (fun n => pns.contains n))
      (get_element_symbol st (get_node_ind pn) gensym_pred).2 p4
  obtain ⟨m21, m22, m23, m24, m25, m26, m27, m28⟩ :=
    @mapSyms_spec gensym_ent isEntitySym genSpec_ent
      ((get_props_neighbors g g.length pn).filter
        (fun n => !pns.contains n && !n.isImplicit))
      (mapSyms gensym_pred
        (get_element_symbol st (get_node_ind pn) gensym_pred).2
        ((get_props_neighbors g g.length pn).filter (fun n => pns.contains n))).2
      m14
  have hR3 := @mapSyms_rerun gensym_ent isEntitySym genSpec_ent
    ((get_props_neighbors g g.length pn).filter
      (fun n => !pns.contains n && !n.isImplicit))
    (mapSyms gensym_pred
      (get_element_symbol st (get_node_ind pn) gensym_pred).2
      ((get_props_neighbors g g.length pn).filter (fun n => pns.contains n))).2
    m14
  have hR4 : mapSyms gensym_pred
      (mapSyms gensym_ent
        (mapSyms gensym_pred
          (get_element_symbol st (get_node_ind pn) gensym_pred).2
          ((get_props_neighbors g g.length pn).filter (fun n => pns.contains n))).2
        ((get_props_neighbors g g.length pn).filter
          (fun n => !pns.contains n && !n.isImplicit))).2
      ((get_props_neighbors g g.length pn).filter (fun n => pns.contains n)) =
      ((mapSyms gensym_pred
        (get_element_symbol st (get_node_ind pn) gensym_pred).2
        ((get_props_neighbors g g.length pn).filter (fun n => pns.contains n))).1,
       (mapSyms gensym_ent
        (mapSyms gensym_pred
          (get_element_symbol st (get_node_ind pn) gensym_pred).2
          ((get_props_neighbors g g.length pn).filter (fun n => pns.contains n))).2
        ((get_props_neighbors g g.length pn).filter
          (fun n => !pns.contains n && !n.isImplicit))).2) := by
    refine mapSyms_of_lookup m15.symm ?_
    intro pr hpr
    exact dlookup_of_mem_nodup m24.2.1 (symtabStep_mem m23 (m16 pr hpr))
  have hmwp : get_mwp dt g pn =
      some (dep :: (get_children dt dep).filter
        (fun c => AUX_LABELS.contains c.parent_relation &&
          !is_props_dependent g pn c.id)) := by
    rw [get_mwp, hdep, Option.map_some']
  simp only [parse_predicate, hdep, hmwp]
  rw [hR3, hR4]

/-- Existential form of `parse_predicate_eq`: some predicate record with the
memoized argument symbols is inserted, and the entity arguments are then
registered. -/
theorem parse_predicate_shape {dt : List DepNode} {g pns : List PropsNode}
    {st : PState} {pn : PropsNode} {dep : DepNode}
    (hdep : get_dep_node dt pn = some dep) (hok : symtabOk st) :
    ∃ rec : PredRecord,
      rec.arguments =
        (mapSyms gensym_ent
          (mapSyms gensym_pred
            (get_element_symbol st (get_node_ind pn) gensym_pred).2
            ((get_props_neighbors g g.length pn).filter (fun n => pns.contains n))).2
          ((get_props_neighbors g g.length pn).filter
            (fun n => !pns.contains n && !n.isImplicit))).1 ++
        (mapSyms gensym_pred
          (get_element_symbol st (get_node_ind pn) gensym_pred).2
          ((get_props_neighbors g g.length pn).filter (fun n => pns.contains n))).1 ∧
      parse_predicate dt g pns st pn =
        some (addEntitiesFor
          { (mapSyms gensym_ent
              (mapSyms gensym_pred
                (get_element_symbol st (get_node_ind pn) gensym_pred).2
                ((get_props_neighbors g g.length pn).filter (fun n => pns.contains n))).2
              ((get_props_neighbors g g.length pn).filter
                (fun n => !pns.contains n && !n.isImplicit))).2 with
            predicates := (dinsert
              (get_element_symbol st (get_node_ind pn) gensym_pred).1 rec
              (mapSyms gensym_ent
                (mapSyms gensym_pred
                  (get_element_symbol st (get_node_ind pn) gensym_pred).2
                  ((get_props_neighbors g g.length pn).filter (fun n => pns.contains n))).2
                ((get_props_neighbors g g.length pn).filter
                  (fun n => !pns.contains n && !n.isImplicit))).2.predicates) }
          ((get_props_neighbors g g.length pn).filter
            (fun n => !pns.contains n && !n.isImplicit))) :=
  ⟨_, rfl, parse_predicate_eq hdep hok⟩

/-- `parse_predicate` preserves the extraction-phase invariants: the symbol
table stays well-formed, every recorded entity symbol keeps an entity record,
no predicate argument dangles, and entity records keep their head-index
shape. -/
theorem parse_predicate_good {dt : List DepNode} {g pns : List PropsNode}
    {st st' : PState} {pn : PropsNode}
    (hwfg : WfGraph g) (hok : symtabOk st) (hA : GoodA st) (hargs : ArgsGood st)
    (hwfe : WfEnts st)
    (h : parse_predicate dt g pns st pn = some st') :
    symtabOk st' ∧ GoodA st' ∧ ArgsGood st' ∧ WfEnts st' ∧
    dkeys st.entities ⊆ dkeys st'.entities ∧ symtabStep st st' := by
  cases hdep : get_dep_node dt pn with
  | none => simp [parse_predicate, hdep] at h
  | some dep =>
    obtain ⟨rec, hrecargs, heq⟩ := @parse_predicate_shape dt g pns st pn dep hdep hok
    rw [heq, Option.some.injEq] at h
    obtain ⟨p1, p2, p3, p4, p5, p6, p7⟩ := ges_spec genSpec_pred st (get_node_ind pn) hok
    obtain ⟨m11, m12, m13, m14, m15, m16, m17, m18⟩ :=
      @mapSyms_spec gensym_pred (fun s => !isEntitySym s) genSpec_pred
        ((get_props_neighbors g g.length pn).filter (fun n => pns.contains n))
        (get_element_symbol st (get_node_ind pn) gensym_pred).2 p4
    obtain ⟨m21, m22, m23, m24, m25, m26, m27, m28⟩ :=
      @mapSyms_spec gensym_ent isEntitySym genSpec_ent
        ((get_props_neighbors g g.length pn).filter
          (fun n => !pns.contains n && !n.isImplicit))
        (mapSyms gensym_pred
          (get_element_symbol st (get_node_ind pn) gensym_pred).2
          ((get_props_neighbors g g.length pn).filter (fun n => pns.contains n))).2
        m14
    have hEnt : (mapSyms gensym_ent
        (mapSyms gensym_pred
          (get_element_symbol st (get_node_ind pn) gensym_pred).2
          ((get_props_neighbors g g.length pn).filter (fun n => pns.contains n))).2
        ((get_props_neighbors g g.length pn).filter
          (fun n => !pns.contains n && !n.isImplicit))).2.entities = st.entities := by
      rw [m21, m11, p1]
    have hPred : (mapSyms gensym_ent
        (mapSyms gensym_pred
          (get_element_symbol st (get_node_ind pn) gensym_pred).2
          ((get_props_neighbors g g.length pn).filter (fun n => pns.contains n))).2
        ((get_props_neighbors g g.length pn).filter
          (fun n => !pns.contains n && !n.isImplicit))).2.predicates = st.predicates := by
      rw [m22, m12, p2]
    have hQstep : symtabStep st (mapSyms gensym_ent
        (mapSyms gensym_pred
          (get_element_symbol st (get_node_ind pn) gensym_pred).2
          ((get_props_neighbors g g.length pn).filter (fun n => pns.contains n))).2
        ((get_props_neighbors g g.length pn).filter
          (fun n => !pns.contains n && !n.isImplicit))).2 :=
      symtabStep_trans p3 (symtabStep_trans m13 m23)
    have hwfDE : ∀ n ∈ ((get_props_neighbors g g.length pn).filter
        (fun m => !pns.contains m && !m.isImplicit)), WfNode n := by
      intro n hn
      exact hwfg n (get_props_neighbors_subset g.length pn n (List.mem_filter.1 hn).1)
    obtain ⟨a1, a2, a3, a4, a5, a6, a7⟩ :=
      @addEntitiesFor_spec
        ((get_props_neighbors g g.length pn).filter
          (fun n => !pns.contains n && !n.isImplicit))
        (mapSyms gensym_ent
          (mapSyms gensym_pred
            (get_element_symbol st (get_node_ind pn) gensym_pred).2
            ((get_props_neighbors g g.length pn).filter (fun n => pns.contains n))).2
          ((get_props_neighbors g g.length pn).filter
            (fun n => !pns.contains n && !n.isImplicit))).1
        { (mapSyms gensym_ent
            (mapSyms gensym_pred
              (get_element_symbol st (get_node_ind pn) gensym_pred).2
              ((get_props_neighbors g g.length pn).filter (fun n => pns.contains n))).2
            ((get_props_neighbors g g.length pn).filter
              (fun n => !pns.contains n && !n.isImplicit))).2 with
          predicates := (dinsert
            (get_element_symbol st (get_node_ind pn) gensym_pred).1 rec
            (mapSyms gensym_ent
              (mapSyms gensym_pred
                (get_element_symbol st (get_node_ind pn) gensym_pred).2
                ((get_props_neighbors g g.length pn).filter (fun n => pns.contains n))).2
              ((get_props_neighbors g g.length pn).filter
                (fun n => !pns.contains n && !n.isImplicit))).2.predicates) }
        (symtabOk_congr rfl rfl rfl m24) m25.symm
        (fun pr hpr => dlookup_of_mem_nodup m24.2.1 (m26 pr hpr))
        hwfDE
    subst h
    have hEnt' : dkeys st.entities ⊆ dkeys (mapSyms gensym_ent
        (mapSyms gensym_pred
          (get_element_symbol st (get_node_ind pn) gensym_pred).2
          ((get_props_neighbors g g.length pn).filter (fun n => pns.contains n))).2
        ((get_props_neighbors g g.length pn).filter
          (fun n => !pns.contains n && !n.isImplicit))).2.entities := by
      rw [hEnt]
      exact fun a ha => ha
    have hsub := fun {a : Sym} (ha : a ∈ dkeys st.entities) => a5 (hEnt' ha)
    refine ⟨?_, ?_, ?_, ?_, fun {a} ha => hsub ha, ?_⟩
    · exact symtabOk_congr a1 a3 a2 (symtabOk_congr rfl rfl rfl m24)
    · intro p hp hent
      have hp' : p ∈ (mapSyms gensym_ent
          (mapSyms gensym_pred
            (get_element_symbol st (get_node_ind pn) gensym_pred).2
            ((get_props_neighbors g g.length pn).filter (fun n => pns.contains n))).2
          ((get_props_neighbors g g.length pn).filter
            (fun n => !pns.contains n && !n.isImplicit))).2.tok_ind_to_symbol := by
        have := a1 ▸ hp
        exact this
      rcases m28 p hp' with hcase | hcase
      · rcases m18 p hcase with hcase' | hcase'
        · rcases p7 p hcase' with hcase'' | hcase''
          · exact hsub (hA p hcase'' hent)
          · rw [hcase''.1] at hent
            simp at hent
            rw [hent] at hcase''
            simp at hcase''
        · rw [hent] at hcase'
          simp at hcase'
      · exact a6 p.2 hcase.2
    · intro q hq a ha hent
      have hq' : q ∈ dinsert
          (get_element_symbol st (get_node_ind pn) gensym_pred).1 rec
          (mapSyms gensym_ent
            (mapSyms gensym_pred
              (get_element_symbol st (get_node_ind pn) gensym_pred).2
              ((get_props_neighbors g g.length pn).filter (fun n => pns.contains n))).2
            ((get_props_neighbors g g.length pn).filter
              (fun n => !pns.contains n && !n.isImplicit))).2.predicates := by
        have := a4 ▸ hq
        exact this
      rcases mem_dinsert hq' with hq'' | hq''
      · rw [hq''] at ha
        simp only [] at ha
        rw [hrecargs] at ha
        rcases List.mem_append.1 ha with haq | haq
        · exact a6 a haq
        · rcases m17 a haq with hcase | hcase
          · rw [hent] at hcase
            simp at hcase
          · obtain ⟨k, hk⟩ := hcase
            rcases p7 (k, a) hk with hcase' | hcase'
            · exact hsub (hA (k, a) hcase' hent)
            · have : a = (get_element_symbol st (get_node_ind pn) gensym_pred).1 := by
                have := congrArg Prod.snd hcase'.1
                simpa using this
              rw [this] at hent
              rw [hent] at hcase'
              simp at hcase'
      · have hqst : q ∈ st.predicates := by
          rw [← hPred]
          exact hq''
        exact hsub (hargs q hqst a ha hent)
    · refine a7 ?_
      refine WfEnts_mono hwfe ?_ ?_
      · exact hEnt
      · intro p hp
        exact symtabStep_mem hQstep hp
    · refine symtabStep_trans hQstep (symtabStep_congr ?_ ?_ ?_)
      · exact a1.symm
      · exact a3.symm
      · exact a2.symm

/-! ## Entity-splitting phase lemmas -/

/-- The phase-1 fold preserves all extraction invariants. -/
theorem phase1_fold_good {dt : List DepNode} {g pns : List PropsNode}
    {st st' : PState} {l : List PropsNode}
    (hwfg : WfGraph g)
    (h : ofoldl (parse_predicate dt g pns) st l = some st')
    (h1 : symtabOk st) (h2 : GoodA st) (h3 : ArgsGood st) (h4 : WfEnts st) :
    symtabOk st' ∧ GoodA st' ∧ ArgsGood st' ∧ WfEnts st' ∧
    dkeys st.entities ⊆ dkeys st'.entities ∧ symtabStep st st' := by
  refine @ofoldl_induct PState PropsNode (parse_predicate dt g pns)
    (fun x => symtabOk x ∧ GoodA x ∧ ArgsGood x ∧ WfEnts x ∧
      dkeys st.entities ⊆ dkeys x.entities ∧ symtabStep st x) l st st' h
    ⟨h1, h2, h3, h4, fun a ha => ha, symtabStep_refl st⟩ ?_
  intro s₁ a s₂ _ hP hf
  obtain ⟨k1, k2, k3, k4, k5, k6⟩ := hP
  obtain ⟨j1, j2, j3, j4, j5, j6⟩ := parse_predicate_good hwfg k1 k2 k3 k4 hf
  exact ⟨j1, j2, j3, j4, fun a ha => j5 (k5 ha), symtabStep_trans k6 j6⟩

theorem gensym_pred_ok {st : PState} (hok : symtabOk st) :
    symtabOk (gensym_pred st).2 ∧ symtabStep st (gensym_pred st).2 ∧
    (gensym_pred st).2.entities = st.entities ∧
    (gensym_pred st).2.predicates = st.predicates ∧
    (gensym_pred st).2.tok_ind_to_symbol = st.tok_ind_to_symbol := by
  obtain ⟨h1, h2, h3⟩ := hok
  refine ⟨⟨?_, h2, h3⟩, ⟨List.prefix_refl _, Nat.le_refl _, Nat.le_succ _⟩, rfl, rfl, rfl⟩
  intro p hp
  exact @symOk_mono st (gensym_pred st).2 (Nat.le_refl st.ent_counter)
    (Nat.le_succ st.pred_counter) p.2 (h1 p hp)

theorem tok_ind_to_NE_isSome {nes : List NamedEntity} {i : Nat}
    (h : (all_NEs_token_indices nes).contains i = true) :
    ∃ ne, tok_ind_to_NE nes i = some ne := by
  have h' : ∃ ne ∈ nes, i ∈ NE_to_indices ne := by
    rcases List.mem_flatMap.1 (List.mem_of_elem_eq_true h) with ⟨ne, hne, hi⟩
    exact ⟨ne, hne, hi⟩
  obtain ⟨ne, hne, hi⟩ := h'
  have hsat : (fun ne => (NE_to_indices ne).contains i) ne = true :=
    List.elem_eq_true_of_mem hi
  have hisSome : (nes.reverse.find? (fun ne => (NE_to_indices ne).contains i)).isSome := by
    rw [List.find?_isSome]
    exact ⟨ne, List.mem_reverse.2 hne, hsat⟩
  obtain ⟨x, hx⟩ := Option.isSome_iff_exists.1 hisSome
  exact ⟨x, hx⟩

theorem zip_mem_of_mem_right :
    ∀ {ws : List α} {ixs : List β}, ws.length = ixs.length →
      ∀ {i : β}, i ∈ ixs → ∃ w, (w, i) ∈ ws.zip ixs := by
  intro ws
  induction ws with
  | nil =>
    intro ixs hlen i hi
    cases ixs with
    | nil => simp at hi
    | cons x xs => simp at hlen
  | cons w ws ih =>
    intro ixs hlen i hi
    cases ixs with
    | nil => simp at hi
    | cons x xs =>
      rcases List.mem_cons.1 hi with hi' | hi'
      · exact ⟨w, by rw [hi']; simp⟩
      · obtain ⟨w', hw'⟩ := ih (by simpa using hlen) hi'
        exact ⟨w', List.mem_cons_of_mem _ hw'⟩

/-- The default branch of the token loop: state bookkeeping and tracking of
the implicit proposition it adds. -/
theorem split_token_default_good {sym : Sym} {k : Nat} {ss ss' : SplitState}
    {w : String} {i : Nat} (hok : symtabOk ss.ps)
    (h : split_token_default sym k ss w i = some ss') :
    symtabOk ss'.ps ∧ symtabStep ss.ps ss'.ps ∧
    ss'.ps.entities = ss.ps.entities ∧
    (∀ a ∈ dkeys ss.ret, a ∈ dkeys ss'.ret) ∧
    (∀ q ∈ ss'.ps.predicates, q ∈ ss.ps.predicates ∨
      (∀ a ∈ q.2.arguments, isEntitySym a = true → a = sym ∨ a ∈ dkeys ss'.ret)) := by
  unfold split_token_default at h
  rw [Option.some.injEq] at h
  subst h
  obtain ⟨e1, e2, e3, e4, e5, e6, e7⟩ := ges_spec genSpec_ent ss.ps (i + 1) hok
  obtain ⟨gp1, gp2, gp3, gp4, gp5⟩ := gensym_pred_ok e4
  refine ⟨symtabOk_congr rfl rfl rfl gp1,
    symtabStep_trans e3 (symtabStep_trans gp2 (symtabStep_congr rfl rfl rfl)),
    ?_, ?_, ?_⟩
  · show (gensym_pred (get_element_symbol ss.ps (i + 1) gensym_ent).2).2.entities =
      ss.ps.entities
    rw [gp3, e1]
  · intro a ha
    exact dkeys_subset_dinsert ha
  · intro q hq
    have hq' : q ∈ dinsert
        (gensym_pred (get_element_symbol ss.ps (i + 1) gensym_ent).2).1
        (create_implicit_proposition
          ((pySortBy Prod.snd
            [((get_element_symbol ss.ps (i + 1) gensym_ent).1, i + 1),
             (sym, k)]).map Prod.fst))
        (gensym_pred (get_element_symbol ss.ps (i + 1) gensym_ent).2).2.predicates := hq
    rcases mem_dinsert hq' with hq'' | hq''
    · refine Or.inr ?_
      intro a ha hent
      rw [hq''] at ha
      simp only [create_implicit_proposition] at ha
      rcases List.mem_map.1 ha with ⟨pr, hpr, hpra⟩
      rcases List.mem_cons.1 (mem_pySortBy.1 hpr) with hpr' | hpr'
      · refine Or.inr ?_
        rw [← hpra, hpr']
        exact self_mem_dkeys_dinsert
      · simp only [List.mem_singleton] at hpr'
        refine Or.inl ?_
        rw [← hpra, hpr']
    · left
      have : q ∈ ss.ps.predicates := by
        rw [← e2, ← gp4]
        exact hq''
      exact this

/-- The post-named-entity branches of the token loop: state bookkeeping and
tracking of the predicates they add. -/
theorem split_token_rest_good {dt : List DepNode} {nes : List NamedEntity}
    {sym : Sym} {k : Nat} {ixs : List Nat} {cur : DepNode} {ss ss' : SplitState}
    {w : String} {i : Nat}
    (hok : symtabOk ss.ps)
    (h : split_token_rest dt nes sym k ixs cur ss w i = some ss') :
    symtabOk ss'.ps ∧ symtabStep ss.ps ss'.ps ∧
    ss'.ps.entities = ss.ps.entities ∧
    (∀ a ∈ dkeys ss.ret, a ∈ dkeys ss'.ret) ∧
    (∀ q ∈ ss'.ps.predicates, q ∈ ss.ps.predicates ∨
      (∀ a ∈ q.2.arguments, isEntitySym a = true → a = sym ∨ a ∈ dkeys ss'.ret)) := by
  unfold split_token_rest at h
  by_cases h1 : (all_NEs_token_indices (get_named_entities nes)).contains i = true
  · rw [if_pos h1] at h
    cases h
    exact ⟨hok, symtabStep_refl _, rfl, fun a ha => ha, fun q hq => Or.inl hq⟩
  · rw [if_neg h1] at h
    by_cases h2 : cur.parent_relation = "det"
    · rw [if_pos h2] at h
      cases h
      exact ⟨hok, symtabStep_refl _, rfl, fun a ha => ha, fun q hq => Or.inl hq⟩
    · rw [if_neg h2] at h
      by_cases h3 : (cur.parent_relation = "prep" && cur.children.length == 1 &&
          (match cur.children.head? with
           | some cid => ixs.contains (cid - 1)
           | none => false)) = true
      · rw [if_pos h3] at h
        cases hch : cur.children.head? with
        | none => simp [hch] at h
        | some cid =>
          simp only [hch] at h
          cases hdep : depById dt cid with
          | none => simp [hdep] at h
          | some prep_child =>
            simp only [hdep] at h
            obtain ⟨e1, e2, e3, e4, e5, e6, e7⟩ :=
              ges_spec genSpec_ent ss.ps prep_child.id hok
            obtain ⟨f1, f2, f3, f4, f5, f6, f7⟩ :=
              ges_spec genSpec_pred
                (get_element_symbol ss.ps prep_child.id gensym_ent).2 (i + 1) e4
            rw [Option.some.injEq] at h
            subst h
            refine ⟨symtabOk_congr rfl rfl rfl f4,
              symtabStep_trans e3 (symtabStep_trans f3 (symtabStep_congr rfl rfl rfl)),
              by show _ = ss.ps.entities; rw [f1, e1], ?_, ?_⟩
            · intro a ha
              exact dkeys_subset_dinsert ha
            · intro q hq
              have hq' : q ∈ dinsert
                  (get_element_symbol
                    (get_element_symbol ss.ps prep_child.id gensym_ent).2
                    (i + 1) gensym_pred).1
                  { bare := BareP.words w [i],
                    template := placeholder sym ++ " " ++ w ++ " " ++
                      placeholder (get_element_symbol ss.ps prep_child.id gensym_ent).1,
                    head := { surface := w, surfaceInds := none,
                              hlemma := w, pos := "IN" },
                    arguments := [sym,
                      (get_element_symbol ss.ps prep_child.id gensym_ent).1] }
                  (get_element_symbol
                    (get_element_symbol ss.ps prep_child.id gensym_ent).2
                    (i + 1) gensym_pred).2.predicates := hq
              rcases mem_dinsert hq' with hq'' | hq''
              · refine Or.inr ?_
                intro a ha hent
                rw [hq''] at ha
                simp only [] at ha
                rcases List.mem_cons.1 ha with ha' | ha'
                · exact Or.inl ha'
                · simp only [List.mem_singleton] at ha'
                  refine Or.inr ?_
                  rw [ha']
                  exact self_mem_dkeys_dinsert
              · left
                have : q ∈ ss.ps.predicates := by
                  rw [← e2, ← f2]
                  exact hq''
                exact this
      · rw [if_neg h3] at h
        by_cases h4 : cur.parent_relation = "pobj"
        · rw [if_pos h4] at h
          cases hpar : cur.parent with
          | none => simp [hpar] at h
          | some pid =>
            simp only [hpar] at h
            by_cases h5 : ixs.contains (pid - 1) = true
            · rw [if_pos h5] at h
              cases h
              exact ⟨hok, symtabStep_refl _, rfl, fun a ha => ha,
                fun q hq => Or.inl hq⟩
            · rw [if_neg h5] at h
              exact split_token_default_good hok h
        · rw [if_neg h4] at h
          exact split_token_default_good hok h

/-- One token-loop iteration: bookkeeping, predicate tracking, and capture of
the entity-head symbol when the head token is reached. -/
theorem split_token_step_good {dt : List DepNode} {nes : List NamedEntity}
    {sym : Sym} {k : Nat} {ixs : List Nat} {ss ss' : SplitState}
    {wi : String × Nat}
    (hok : symtabOk ss.ps)
    (h : split_token_step dt nes sym k ixs ss wi = some ss') :
    symtabOk ss'.ps ∧ symtabStep ss.ps ss'.ps ∧
    ss'.ps.entities = ss.ps.entities ∧
    (∀ a ∈ dkeys ss.ret, a ∈ dkeys ss'.ret) ∧
    (∀ q ∈ ss'.ps.predicates, q ∈ ss.ps.predicates ∨
      (∀ a ∈ q.2.arguments, isEntitySym a = true → a = sym ∨ a ∈ dkeys ss'.ret)) ∧
    (wi.2 + 1 = k → sym ∈ dkeys ss'.ret) := by
  unfold split_token_step at h
  cases hget : dt.get? (wi.2 + 1) with
  | none => rw [hget] at h; simp at h
  | some cur =>
    simp only [hget] at h
    by_cases hcond : (decide (wi.2 + 1 = k) && !(dkeys ss.ret).contains sym) = true
    · rw [if_pos hcond] at h
      rw [Option.some.injEq] at h
      subst h
      refine ⟨hok, symtabStep_refl _, rfl, ?_, fun q hq => Or.inl hq, ?_⟩
      · intro a ha
        exact dkeys_subset_dinsert ha
      · intro _
        exact self_mem_dkeys_dinsert
    · rw [if_neg hcond] at h
      have hsym : wi.2 + 1 = k → sym ∈ dkeys ss.ret := by
        intro hk
        by_contra hns
        cases hc : (dkeys ss.ret).contains sym with
        | true => exact hns (List.mem_of_elem_eq_true hc)
        | false => exact hcond (by simp [hk, hc, hns])
      cases hroot : NE_root_ind_to_ent (get_named_entities nes) wi.2 with
      | some ne =>
        simp only [hroot] at h
        by_cases hins : ss.nes_to_insert.contains ne = true
        · rw [if_pos hins] at h
          rw [Option.some.injEq] at h
          subst h
          obtain ⟨e1, e2, e3, e4, e5, e6, e7⟩ :=
            ges_spec genSpec_ent ss.ps (wi.2 + 1) hok
          refine ⟨e4, e3, e1, ?_, ?_, ?_⟩
          · intro a ha
            exact dkeys_subset_dinsert ha
          · intro q hq
            left
            have : q ∈ ss.ps.predicates := by
              rw [← e2]
              exact hq
            exact this
          · intro hk
            exact dkeys_subset_dinsert (hsym hk)
        · rw [if_neg hins] at h
          obtain ⟨r1, r2, r3, r4, r5⟩ := split_token_rest_good hok h
          exact ⟨r1, r2, r3, r4, r5, fun hk => r4 sym (hsym hk)⟩
      | none =>
        simp only [hroot] at h
        obtain ⟨r1, r2, r3, r4, r5⟩ := split_token_rest_good hok h
        exact ⟨r1, r2, r3, r4, r5, fun hk => r4 sym (hsym hk)⟩

/-- The token loop of one entity preserves the bookkeeping facts and captures
the head symbol when a token at the head position occurs in the zip list. -/
theorem split_token_fold_good {dt : List DepNode} {nes : List NamedEntity}
    {sym : Sym} {k : Nat} {ixs : List Nat} :
    ∀ {l : List (String × Nat)} {ss ss' : SplitState},
      symtabOk ss.ps →
      ofoldl (split_token_step dt nes sym k ixs) ss l = some ss' →
      symtabOk ss'.ps ∧ symtabStep ss.ps ss'.ps ∧
      ss'.ps.entities = ss.ps.entities ∧
      (∀ a ∈ dkeys ss.ret, a ∈ dkeys ss'.ret) ∧
      (∀ q ∈ ss'.ps.predicates, q ∈ ss.ps.predicates ∨
        (∀ a ∈ q.2.arguments, isEntitySym a = true → a = sym ∨ a ∈ dkeys ss'.ret)) ∧
      (1 ≤ k → (∃ w, (w, k - 1) ∈ l) → sym ∈ dkeys ss'.ret) := by
  intro l
  induction l with
  | nil =>
    intro ss ss' hok h
    simp only [ofoldl, Option.some.injEq] at h
    subst h
    refine ⟨hok, symtabStep_refl _, rfl, fun a ha => ha,
      fun q hq => Or.inl hq, ?_⟩
    intro _ hex
    obtain ⟨w, hw⟩ := hex
    simp at hw
  | cons wi rest ih =>
    intro ss ss' hok h
    simp only [ofoldl] at h
    cases hstep : split_token_step dt nes sym k ixs ss wi with
    | none => rw [hstep] at h; exact absurd h (by simp)
    | some ss₁ =>
      rw [hstep] at h
      obtain ⟨s1, s2, s3, s4, s5, s6⟩ := split_token_step_good hok hstep
      obtain ⟨i1, i2, i3, i4, i5, i6⟩ := ih s1 h
      refine ⟨i1, symtabStep_trans s2 i2, by rw [i3, s3],
        fun a ha => i4 a (s4 a ha), ?_, ?_⟩
      · intro q hq
        rcases i5 q hq with hcase | hcase
        · rcases s5 q hcase with hcase' | hcase'
          · exact Or.inl hcase'
          · refine Or.inr ?_
            intro a ha hent
            rcases hcase' a ha hent with h' | h'
            · exact Or.inl h'
            · exact Or.inr (i4 a h')
        · exact Or.inr hcase
      · intro hk1 hex
        obtain ⟨w, hw⟩ := hex
        rcases List.mem_cons.1 hw with hw' | hw'
        · have : wi.2 + 1 = k := by
            rw [← hw']
            simp only []
            omega
          exact i4 sym (s6 this)
        · exact i6 hk1 ⟨w, hw'⟩

/-- `split_entity`: the processed entity's symbol is a key of the output
`ret`, and every predicate added while processing it has its entity-family
arguments among the `ret` keys. -/
theorem split_entity_good {dt : List DepNode} {nes : List NamedEntity}
    {ss ss' : SplitState} {e : Sym × EntityRecord}
    (hok : symtabOk ss.ps)
    (hwfe : ∃ k, (k, e.1) ∈ ss.ps.tok_ind_to_symbol ∧ 1 ≤ k ∧
      (k - 1) ∈ e.2.2 ∧ (pySplit e.2.1).length = e.2.2.length)
    (h : split_entity dt nes ss e = some ss') :
    symtabOk ss'.ps ∧ symtabStep ss.ps ss'.ps ∧
    ss'.ps.entities = ss.ps.entities ∧
    (∀ a ∈ dkeys ss.ret, a ∈ dkeys ss'.ret) ∧
    (∀ q ∈ ss'.ps.predicates, q ∈ ss.ps.predicates ∨
      (∀ a ∈ q.2.arguments, isEntitySym a = true → a ∈ dkeys ss'.ret)) ∧
    e.1 ∈ dkeys ss'.ret := by
  obtain ⟨k, hkmem, hk1, hkix, hklen⟩ := hwfe
  have hinv : ent_symbol_to_head_ind ss.ps.tok_ind_to_symbol e.1 = some k :=
    ent_symbol_to_head_ind_of_mem hok.2.2 hkmem
  unfold split_entity at h
  simp only [hinv] at h
  unfold split_entity_ne_check at h
  by_cases hne : (all_NEs_token_indices (get_named_entities nes)).contains (k - 1) = true
  · rw [if_pos hne] at h
    obtain ⟨ne, hneq⟩ := tok_ind_to_NE_isSome hne
    simp only [hneq] at h
    have hok1 : symtabOk (SplitState.mk ss.ps
        (dinsert e.1 (NE_to_entity ne) ss.ret)
        (ss.nes_to_insert.erase ne)).ps := hok
    obtain ⟨i1, i2, i3, i4, i5, i6⟩ := split_token_fold_good hok1 h
    have hkey : e.1 ∈ dkeys ss'.ret := i4 e.1 self_mem_dkeys_dinsert
    refine ⟨i1, i2, i3, ?_, ?_, hkey⟩
    · intro a ha
      exact i4 a (dkeys_subset_dinsert ha)
    · intro q hq
      rcases i5 q hq with hcase | hcase
      · exact Or.inl hcase
      · refine Or.inr ?_
        intro a ha hent
        rcases hcase a ha hent with h' | h'
        · rw [h']; exact hkey
        · exact h'
  · rw [if_neg hne] at h
    obtain ⟨i1, i2, i3, i4, i5, i6⟩ := split_token_fold_good hok h
    have hkey : e.1 ∈ dkeys ss'.ret := by
      refine i6 hk1 ?_
      exact zip_mem_of_mem_right hklen hkix
    refine ⟨i1, i2, i3, i4, ?_, hkey⟩
    intro q hq
    rcases i5 q hq with hcase | hcase
    · exact Or.inl hcase
    · refine Or.inr ?_
      intro a ha hent
      rcases hcase a ha hent with h' | h'
      · rw [h']; exact hkey
      · exact h'

/-- The entity loop of `_split_entities`: every processed entity key ends up
in `ret`, and all predicates (old trackers aside) have their entity-family
arguments among the `ret` keys. -/
theorem split_fold_good {dt : List DepNode} {nes : List NamedEntity} :
    ∀ {es : List (Sym × EntityRecord)} {ss ss' : SplitState},
      symtabOk ss.ps →
      (∀ e ∈ es, ∃ k, (k, e.1) ∈ ss.ps.tok_ind_to_symbol ∧ 1 ≤ k ∧
        (k - 1) ∈ e.2.2 ∧ (pySplit e.2.1).length = e.2.2.length) →
      ofoldl (split_entity dt nes) ss es = some ss' →
      symtabOk ss'.ps ∧ symtabStep ss.ps ss'.ps ∧
      ss'.ps.entities = ss.ps.entities ∧
      (∀ a ∈ dkeys ss.ret, a ∈ dkeys ss'.ret) ∧
      (∀ q ∈ ss'.ps.predicates, q ∈ ss.ps.predicates ∨
        (∀ a ∈ q.2.arguments, isEntitySym a = true → a ∈ dkeys ss'.ret)) ∧
      (∀ e ∈ es, e.1 ∈ dkeys ss'.ret) := by
  intro es
  induction es with
  | nil =>
    intro ss ss' hok _ h
    simp only [ofoldl, Option.some.injEq] at h
    subst h
    refine ⟨hok, symtabStep_refl _, rfl, fun a ha => ha,
      fun q hq => Or.inl hq, ?_⟩
    intro e he
    simp at he
  | cons e rest ih =>
    intro ss ss' hok hwfs h
    simp only [ofoldl] at h
    cases hstep : split_entity dt nes ss e with
    | none => rw [hstep] at h; exact absurd h (by simp)
    | some ss₁ =>
      rw [hstep] at h
      obtain ⟨s1, s2, s3, s4, s5, s6⟩ :=
        split_entity_good hok (hwfs e (List.mem_cons_self e rest)) hstep
      have hwfs₁ : ∀ e' ∈ rest, ∃ k, (k, e'.1) ∈ ss₁.ps.tok_ind_to_symbol ∧
          1 ≤ k ∧ (k - 1) ∈ e'.2.2 ∧ (pySplit e'.2.1).length = e'.2.2.length := by
        intro e' he'
        obtain ⟨k, hk, h1, h2, h3⟩ := hwfs e' (List.mem_cons_of_mem _ he')
        exact ⟨k, symtabStep_mem s2 hk, h1, h2, h3⟩
      obtain ⟨i1, i2, i3, i4, i5, i6⟩ := ih s1 hwfs₁ h
      refine ⟨i1, symtabStep_trans s2 i2, by rw [i3, s3],
        fun a ha => i4 a (s4 a ha), ?_, ?_⟩
      · intro q hq
        rcases i5 q hq with hcase | hcase
        · rcases s5 q hcase with hcase' | hcase'
          · exact Or.inl hcase'
          · refine Or.inr ?_
            intro a ha hent
            exact i4 a (hcase' a ha hent)
        · exact Or.inr hcase
      · intro e' he'
        rcases List.mem_cons.1 he' with he'' | he''
        · rw [he'']
          exact i4 e.1 s6
        · exact i6 e' he''

/-- `_split_entities` preserves the no-dangling-arguments invariant: after
the rewrite, every entity-family argument of every predicate is a key of the
new entity map. -/
theorem split_entities_good {dt : List DepNode} {nes : List NamedEntity}
    {st st' : PState}
    (hok : symtabOk st) (hwfe : WfEnts st) (hargs : ArgsGood st)
    (h : split_entities dt nes st = some st') :
    symtabOk st' ∧ ArgsGood st' ∧ symtabStep st st' := by
  unfold split_entities at h
  dsimp only [] at h
  cases hf : ofoldl (split_entity dt nes)
      { ps := st, ret := [], nes_to_insert := (get_named_entities nes).dedup }
      st.entities with
  | none => rw [hf] at h; exact absurd h (by simp)
  | some ssF =>
    rw [hf] at h
    simp only [Option.map_some', Option.some.injEq] at h
    subst h
    have hwfs : ∀ e ∈ st.entities, ∃ k,
        (k, e.1) ∈ (SplitState.mk st ([] : List (Sym × EntityRecord))
          (get_named_entities nes).dedup).ps.tok_ind_to_symbol ∧
        1 ≤ k ∧ (k - 1) ∈ e.2.2 ∧ (pySplit e.2.1).length = e.2.2.length := hwfe
    obtain ⟨i1, i2, i3, i4, i5, i6⟩ := split_fold_good hok hwfs hf
    refine ⟨symtabOk_congr rfl rfl rfl i1, ?_,
      symtabStep_trans i2 (symtabStep_congr rfl rfl rfl)⟩
    intro q hq a ha hent
    have hq' : q ∈ ssF.ps.predicates := hq
    rcases i5 q hq' with hcase | hcase
    · have haks : a ∈ dkeys st.entities := hargs q hcase a ha hent
      rcases List.mem_map.1 haks with ⟨e, he, hea⟩
      have : e.1 ∈ dkeys ssF.ret := i6 e he
      show a ∈ dkeys ssF.ret
      rw [← hea]
      exact this
    · exact hcase a ha hent

/-! ## Modifier-linking phase lemmas -/

/-- `mapSyms` with `gensym_ent` over nodes whose indices are bound to symbols
with entity records is a pure lookup producing keys of the entity map. -/
theorem mapSyms_mem_keys {st : PState} :
    ∀ {ns : List PropsNode},
      (∀ n ∈ ns, ∃ s, dlookup (get_node_ind n) st.tok_ind_to_symbol = some s ∧
        s ∈ dkeys st.entities) →
      (mapSyms gensym_ent st ns).2 = st ∧
      (∀ s ∈ (mapSyms gensym_ent st ns).1, s ∈ dkeys st.entities) := by
  intro ns
  induction ns with
  | nil =>
    intro _
    exact ⟨rfl, fun s hs => absurd hs (by simp [mapSyms])⟩
  | cons n rest ih =>
    intro hb
    obtain ⟨s, hs, hsk⟩ := hb n (List.mem_cons_self n rest)
    have hges : get_element_symbol st (get_node_ind n) gensym_ent = (s, st) :=
      ges_of_lookup hs
    obtain ⟨ih1, ih2⟩ := ih (fun m hm => hb m (List.mem_cons_of_mem _ hm))
    have hunf : mapSyms gensym_ent st (n :: rest) =
        ((get_element_symbol st (get_node_ind n) gensym_ent).1 ::
          (mapSyms gensym_ent (get_element_symbol st (get_node_ind n) gensym_ent).2 rest).1,
         (mapSyms gensym_ent (get_element_symbol st (get_node_ind n) gensym_ent).2 rest).2) := rfl
    rw [hunf, hges]
    refine ⟨ih1, ?_⟩
    intro t ht
    rcases List.mem_cons.1 ht with ht' | ht'
    · rw [ht']; exact hsk
    · exact ih2 t ht'

/-- `add_modifier` keeps the symbol table well-formed, only grows the entity
map, and the implicit proposition it adds has all its arguments among the
entity keys. -/
theorem add_modifier_good {ent modifier : PropsNode} {st : PState} {entSym : Sym}
    (hok : symtabOk st)
    (hl : dlookup (get_node_ind ent) st.tok_ind_to_symbol = some entSym)
    (hmem : entSym ∈ dkeys st.entities) :
    symtabOk (add_modifier ent st modifier) ∧
    symtabStep st (add_modifier ent st modifier) ∧
    dkeys st.entities ⊆ dkeys (add_modifier ent st modifier).entities ∧
    (∀ q ∈ (add_modifier ent st modifier).predicates, q ∈ st.predicates ∨
      (∀ a ∈ q.2.arguments, a ∈ dkeys (add_modifier ent st modifier).entities)) ∧
    dlookup (get_node_ind ent) (add_modifier ent st modifier).tok_ind_to_symbol =
      some entSym ∧
    entSym ∈ dkeys (add_modifier ent st modifier).entities := by
  obtain ⟨a1, a2, a3, a4, a5, a6⟩ := @add_props_entity_spec st modifier hok
  obtain ⟨gp1, gp2, gp3, gp4, gp5⟩ := gensym_pred_ok a2
  have hlent : dlookup (get_node_ind ent)
      (gensym_pred (add_props_entity st modifier)).2.tok_ind_to_symbol = some entSym := by
    rw [gp5]
    exact dlookup_of_symtabStep a1 a2 hl
  have hment : entSym ∈ dkeys (gensym_pred (add_props_entity st modifier)).2.entities := by
    rw [gp3, a4]
    exact dkeys_subset_dinsert hmem
  have hlmod : dlookup (get_node_ind modifier)
      (gensym_pred (add_props_entity st modifier)).2.tok_ind_to_symbol =
      some (get_element_symbol st (get_node_ind modifier) gensym_ent).1 := by
    rw [gp5]
    exact a5
  have hmmod : (get_element_symbol st (get_node_ind modifier) gensym_ent).1 ∈
      dkeys (gensym_pred (add_props_entity st modifier)).2.entities := by
    rw [gp3, a4]
    exact self_mem_dkeys_dinsert
  have hb : ∀ n ∈ pySortBy get_node_ind [ent, modifier], ∃ s,
      dlookup (get_node_ind n)
        (gensym_pred (add_props_entity st modifier)).2.tok_ind_to_symbol = some s ∧
      s ∈ dkeys (gensym_pred (add_props_entity st modifier)).2.entities := by
    intro n hn
    rcases List.mem_cons.1 (mem_pySortBy.1 hn) with hn' | hn'
    · subst hn'
      exact ⟨entSym, hlent, hment⟩
    · simp only [List.mem_singleton] at hn'
      rw [hn']
      exact ⟨(get_element_symbol st (get_node_ind modifier) gensym_ent).1, hlmod, hmmod⟩
  obtain ⟨q1, q2⟩ := mapSyms_mem_keys hb
  show _ ∧ _ ∧ _ ∧ _ ∧ _ ∧ _
  unfold add_modifier
  dsimp only []
  rw [q1]
  refine ⟨symtabOk_congr rfl rfl rfl gp1,
    symtabStep_trans a1 (symtabStep_trans gp2 (symtabStep_congr rfl rfl rfl)),
    ?_, ?_, hlent, hment⟩
  · intro a ha
    show a ∈ dkeys (gensym_pred (add_props_entity st modifier)).2.entities
    rw [gp3, a4]
    exact dkeys_subset_dinsert ha
  · intro q hq
    have hq' : q ∈ dinsert (gensym_pred (add_props_entity st modifier)).1
        (create_implicit_proposition
          (mapSyms gensym_ent (gensym_pred (add_props_entity st modifier)).2
            (pySortBy get_node_ind [ent, modifier])).1)
        (gensym_pred (add_props_entity st modifier)).2.predicates := hq
    rcases mem_dinsert hq' with hq'' | hq''
    · refine Or.inr ?_
      intro a ha
      rw [hq''] at ha
      simp only [create_implicit_proposition] at ha
      exact q2 a ha
    · left
      have : q ∈ st.predicates := by
        rw [← a3, ← gp4]
        exact hq''
      exact this

/-- The modifier loop for one entity node. -/
theorem add_modifier_fold_good {ent : PropsNode} {entSym : Sym} :
    ∀ {ms : List PropsNode} {st : PState},
      symtabOk st →
      dlookup (get_node_ind ent) st.tok_ind_to_symbol = some entSym →
      entSym ∈ dkeys st.entities →
      symtabOk (ms.foldl (add_modifier ent) st) ∧
      symtabStep st (ms.foldl (add_modifier ent) st) ∧
      dkeys st.entities ⊆ dkeys (ms.foldl (add_modifier ent) st).entities ∧
      (∀ q ∈ (ms.foldl (add_modifier ent) st).predicates, q ∈ st.predicates ∨
        (∀ a ∈ q.2.arguments, a ∈ dkeys (ms.foldl (add_modifier ent) st).entities)) := by
  intro ms
  induction ms with
  | nil =>
    intro st hok _ _
    exact ⟨hok, symtabStep_refl st, fun a ha => ha, fun q hq => Or.inl hq⟩
  | cons m rest ih =>
    intro st hok hl hmem
    obtain ⟨s1, s2, s3, s4, s5, s6⟩ := add_modifier_good hok hl hmem
    obtain ⟨i1, i2, i3, i4⟩ := ih s1 s5 s6
    have hfold : (m :: rest).foldl (add_modifier ent) st =
        rest.foldl (add_modifier ent) (add_modifier ent st m) := rfl
    rw [hfold]
    refine ⟨i1, symtabStep_trans s2 i2, fun a ha => i3 (s3 ha), ?_⟩
    intro q hq
    rcases i4 q hq with hcase | hcase
    · rcases s4 q hcase with hcase' | hcase'
      · exact Or.inl hcase'
      · exact Or.inr (fun a ha => i3 (hcase' a ha))
    · exact Or.inr hcase

/-- One step of the outer loop of `add_modifiers_as_implicits`. -/
theorem add_modifiers_step_good {g : List PropsNode} {allNE : List Nat}
    {st : PState} {ent : PropsNode} (hok : symtabOk st) (hargs : ArgsGood st) :
    symtabOk (add_modifiers_step g allNE st ent) ∧
    ArgsGood (add_modifiers_step g allNE st ent) ∧
    dkeys st.entities ⊆ dkeys (add_modifiers_step g allNE st ent).entities := by
  unfold add_modifiers_step
  cases hl : dlookup (get_node_ind ent) st.tok_ind_to_symbol with
  | none => exact ⟨hok, hargs, fun a ha => ha⟩
  | some entSym =>
    simp only []
    by_cases hc : (dkeys st.entities).contains entSym = true
    · rw [if_pos hc]
      have hmem : entSym ∈ dkeys st.entities := List.mem_of_elem_eq_true hc
      obtain ⟨i1, i2, i3, i4⟩ :=
        add_modifier_fold_good hok hl hmem
      refine ⟨i1, ?_, i3⟩
      intro q hq a ha hent
      rcases i4 q hq with hcase | hcase
      · exact i3 (hargs q hcase a ha hent)
      · exact hcase a ha
    · rw [if_neg hc]
      exact ⟨hok, hargs, fun a ha => ha⟩

/-- `add_modifiers_as_implicits` preserves the no-dangling invariant. -/
theorem add_modifiers_good {g : List PropsNode} {allNE : List Nat} :
    ∀ {l : List PropsNode} {st : PState}, symtabOk st → ArgsGood st →
      symtabOk (l.foldl (add_modifiers_step g allNE) st) ∧
      ArgsGood (l.foldl (add_modifiers_step g allNE) st) := by
  intro l
  induction l with
  | nil => intro st hok hargs; exact ⟨hok, hargs⟩
  | cons n rest ih =>
    intro st hok hargs
    obtain ⟨s1, s2, s3⟩ := add_modifiers_step_good hok hargs
    have hfold : (n :: rest).foldl (add_modifiers_step g allNE) st =
        rest.foldl (add_modifiers_step g allNE) (add_modifiers_step g allNE st n) := rfl
    rw [hfold]
    exact ih s1 s2

/-! ## Claim theorems -/

/-- C1: after a completed `parse` call, every entity symbol (`"A-n"` family)
that appears in the Arguments list of any record in the Predicates mapping of
the returned OKR is present as a key in the Entities mapping; this holds for
every well-formed input and every setting of the three configuration flags. -/
theorem no_dangling_entity_refs
    {ci cz cc : Bool} {dt : List DepNode} {g : List PropsNode}
    {nes : List NamedEntity} {okr : OKR}
    (hwfg : WfGraph g)
    (hp : parse ci cz cc dt g nes = some okr) :
    ∀ q ∈ okr.predicates, ∀ a ∈ q.2.arguments,
      isEntitySym a = true → a ∈ dkeys okr.entities := by
  unfold parse at hp
  cases hpo : parse_okr ci cz cc dt g nes init_state with
  | none => rw [hpo] at hp; exact absurd hp (by simp)
  | some stF =>
    rw [hpo] at hp
    simp only [Option.map_some', Option.some.injEq] at hp
    subst hp
    unfold parse_okr at hpo
    dsimp only [] at hpo
    cases h1 : ofoldl (parse_predicate dt g (get_predicates cz ci cc g))
        init_state (get_predicates cz ci cc g) with
    | none => simp [h1] at hpo
    | some st1 =>
      simp only [h1] at hpo
      cases h2 : split_entities dt nes st1 with
      | none => simp [h2] at hpo
      | some st2 =>
        simp only [h2, Option.some.injEq] at hpo
        have hok0 : symtabOk init_state :=
          ⟨fun p hp' => absurd hp' (by simp [init_state]),
           by simp [init_state, dkeys], by simp [init_state]⟩
        have hgA0 : GoodA init_state := fun p hp' => absurd hp' (by simp [init_state])
        have hag0 : ArgsGood init_state := fun q hq => absurd hq (by simp [init_state])
        have hwf0 : WfEnts init_state := fun e he => absurd he (by simp [init_state])
        obtain ⟨k1, k2, k3, k4, k5, k6⟩ := phase1_fold_good hwfg h1 hok0 hgA0 hag0 hwf0
        obtain ⟨m1, m2, m3⟩ := split_entities_good k1 k4 k3 h2
        obtain ⟨n1, n2⟩ := @add_modifiers_good g
          (all_NEs_token_indices (get_named_entities nes)) g st2 m1 m2
        have hF : ArgsGood stF := by
          rw [← hpo]
          exact n2
        intro q hq a ha hent
        exact hF q hq a ha hent

theorem no_dangling_entity_refs_witness :
    WfGraph c1g ∧ parse true true true c1dt c1g [] = some c1okr ∧
    (∀ q ∈ c1okr.predicates, ∀ a ∈ q.2.arguments,
      isEntitySym a = true → a ∈ dkeys c1okr.entities) :=
  ⟨by unfold WfGraph WfNode WfWord; decide, by decide,
   @no_dangling_entity_refs true true true c1dt c1g [] c1okr
     (by unfold WfGraph WfNode WfWord; decide) (by decide)⟩

/-- `get_element_symbol` with the entity generator never touches the
predicate map. -/
theorem ges_predicates (st : PState) (i : Nat) :
    (get_element_symbol st i gensym_ent).2.predicates = st.predicates := by
  unfold get_element_symbol
  cases dlookup i st.tok_ind_to_symbol <;> rfl

/-- The entity-registration loop never touches the predicate map. -/
theorem addEntitiesFor_predicates :
    ∀ {ns : List PropsNode} {st : PState},
      (addEntitiesFor st ns).predicates = st.predicates := by
  intro ns
  induction ns with
  | nil => intro st; rfl
  | cons n rest ih =>
    intro st
    have hfold : addEntitiesFor st (n :: rest) =
        addEntitiesFor (add_props_entity st n) rest := rfl
    rw [hfold, ih]
    exact ges_predicates st (get_node_ind n)

/-- The freshly reset state satisfies the symbol-table invariant. -/
theorem init_symtabOk : symtabOk init_state :=
  ⟨fun p hp => absurd hp (by simp [init_state]),
   by simp [init_state, dkeys], by simp [init_state]⟩

/-- C2: a proposition-graph node is selected as a predicate iff its
is-predicate flag is set, and (`get_zero_args` is true or its neighbor
dictionary is nonempty), and (`get_implicits` is true or its implicit flag is
unset), and (`get_conj` is true or its conjunction flag is unset); in
particular, with `get_zero_args = false` a predicate node with zero neighbors
is never selected, hence never processed by `parse_predicate`. -/
theorem predicate_selection (cz ci cc : Bool) (g : List PropsNode)
    (n : PropsNode) :
    (n ∈ get_predicates cz ci cc g ↔
      n ∈ g ∧ n.isPredicate = true ∧ (cz = true ∨ n.neighborsL ≠ []) ∧
      (ci = true ∨ n.isImplicit = false) ∧ (cc = true ∨ n.isConjFlag = false)) ∧
    (n.neighborsL = [] → n ∉ get_predicates false ci cc g) := by
  have hiff : ∀ a b c : Bool, n ∈ get_predicates a b c g ↔
      n ∈ g ∧ n.isPredicate = true ∧ (a = true ∨ n.neighborsL ≠ []) ∧
      (b = true ∨ n.isImplicit = false) ∧ (c = true ∨ n.isConjFlag = false) := by
    intro a b c
    unfold get_predicates
    rw [List.mem_filter]
    cases hp : n.isPredicate <;> cases hi : n.isImplicit <;>
      cases hcf : n.isConjFlag <;> cases hn : n.neighborsL <;>
      cases a <;> cases b <;> cases c <;> simp [hp, hi, hcf, hn]
  refine ⟨hiff cz ci cc, ?_⟩
  intro hnil hmem
  rcases ((hiff false ci cc).1 hmem).2.2.1 with hz | hz
  · exact absurd hz (by simp)
  · exact hz hnil

theorem predicate_selection_witness :
    c2n ∈ get_predicates false false false c2g ∧ c2n.neighborsL ≠ [] :=
  ⟨((predicate_selection false false false c2g c2n).1).2
     ⟨by decide, by decide, Or.inr (by decide), Or.inr (by decide),
      Or.inr (by decide)⟩,
   by decide⟩

/-- C3: the full per-sentence pipeline is deterministic — two runs of `parse`
followed by `get_okr` on identical dependency-tree, proposition-graph and
named-entity inputs with identical flags produce OKRs with the same sentence
string, entity mapping and predicate mapping (the internal mutable state is
fully reset by `parse`, so the result is a function of the inputs alone). -/
theorem pipeline_deterministic {ci cz cc : Bool} {dt : List DepNode}
    {g : List PropsNode} {nes : List NamedEntity} {okr1 okr2 : OKR}
    (h1 : parse ci cz cc dt g nes = some okr1)
    (h2 : parse ci cz cc dt g nes = some okr2) :
    okr1.sentence = okr2.sentence ∧ okr1.entities = okr2.entities ∧
    okr1.predicates = okr2.predicates := by
  rw [h1, Option.some.injEq] at h2
  rw [h2]
  exact ⟨rfl, rfl, rfl⟩

theorem pipeline_deterministic_witness :
    parse false false false [] [] [] = some (OKR.mk "" [] []) ∧
    ((OKR.mk "" [] []).sentence = (OKR.mk "" [] []).sentence ∧
     (OKR.mk "" [] []).entities = (OKR.mk "" [] []).entities ∧
     (OKR.mk "" [] []).predicates = (OKR.mk "" [] []).predicates) :=
  ⟨by decide,
   @pipeline_deterministic false false false [] [] [] (OKR.mk "" [] [])
     (OKR.mk "" [] []) (by decide) (by decide)⟩

/-- C7 counterexample: requesting an entity-kind symbol for token index 5,
which is already bound to the predicate symbol `P1`, does not fail in any
way — `get_element_symbol` silently returns the predicate symbol `P1` with
the state unchanged. -/
theorem wrong_kind_symbol_cex :
    get_element_symbol c7st 5 gensym_ent = (Sym.P 1, c7st) ∧
    isEntitySym (Sym.P 1) = false := by decide

/-- C7 amended: `get_element_symbol` performs no kind check at all — for any
token index already bound to a symbol, it returns that symbol unchanged (and
leaves the state untouched) regardless of which generator kind was requested;
no error path exists. -/
theorem wrong_kind_symbol_amended {st : PState} {i : Nat} {s : Sym}
    (gen : PState → Sym × PState)
    (h : dlookup i st.tok_ind_to_symbol = some s) :
    get_element_symbol st i gen = (s, st) := by
  unfold get_element_symbol
  rw [h]

theorem wrong_kind_symbol_amended_witness :
    dlookup 3 c7wst.tok_ind_to_symbol = some (Sym.A 1) ∧
    get_element_symbol c7wst 3 gensym_pred = (Sym.A 1, c7wst) :=
  ⟨by decide, wrong_kind_symbol_amended gensym_pred (by decide)⟩

/-- C9 counterexample: on the sentence `the dog barked`, whose token `the`
has dependency relation `det`, the pipeline produces an OKR in which the
determiner is materialized as its own entity `A2` (added by the
modifier-linking phase, which has no determiner filter) and appears inside a
template placeholder expansion — contradicting the claim that determiner
tokens are never materialized. -/
theorem det_materialized_cex :
    parse true true true c9dt c9g [] = some c9okr ∧
    ¬ det_never_materialized c9dt c9okr := by
  refine ⟨by decide, ?_⟩
  unfold det_never_materialized detTokenInds
  intro hcon
  have := hcon.1 (Sym.A 2, ("the", [0])) (by decide) 0 (by decide)
  exact this rfl

/-- C9 amended: the determiner branch of the token loop of `_split_entities`
does drop the token (under its guards: the token reaches that branch and is
not covered by a named-entity span) — the split state is returned unchanged.
Determiners can still be materialized by the other phases, as the
counterexample shows. -/
theorem det_dropped_amended {dt : List DepNode} {nes : List NamedEntity}
    {sym : Sym} {k : Nat} {inds : List Nat} {cur : DepNode}
    {ss : SplitState} {word : String} {ind : Nat}
    (h1 : (all_NEs_token_indices (get_named_entities nes)).contains ind = false)
    (h2 : cur.parent_relation = "det") :
    split_token_rest dt nes sym k inds cur ss word ind = some ss := by
  unfold split_token_rest
  rw [h1]
  simp only [Bool.false_eq_true, if_false, if_pos h2]

theorem det_dropped_amended_witness :
    c9wcur.parent_relation = "det" ∧
    split_token_rest c9dt [] (Sym.A 1) 2 [0, 1] c9wcur c9wss "the" 0 =
      some c9wss :=
  ⟨by decide, det_dropped_amended (by decide) (by decide)⟩

/-- C10: the token-index projection `get_node_ind` returns, for a predicate
node with a nonempty span, the minimal word index of the span; for a
non-predicate node the maximal word index (its last word); and when the span
is empty (the `min`/`max` of the Python code raises and the `except` branch
fires) the node's own `id`. -/
theorem node_index_projection (n : PropsNode) :
    (n.text = [] → get_node_ind n = n.nid) ∧
    (n.text ≠ [] → n.isPredicate = true →
      get_node_ind n ∈ n.text.map Word.index ∧
      ∀ i ∈ n.text.map Word.index, get_node_ind n ≤ i) ∧
    (n.text ≠ [] → n.isPredicate = false →
      get_node_ind n ∈ n.text.map Word.index ∧
      ∀ i ∈ n.text.map Word.index, i ≤ get_node_ind n) := by
  refine ⟨?_, ?_, ?_⟩
  · intro he
    unfold get_node_ind
    rw [he]
  · intro hne hp
    cases ht : n.text with
    | nil => exact absurd ht hne
    | cons w ws =>
      have hind : get_node_ind n = (ws.map Word.index).foldl min w.index := by
        unfold get_node_ind
        rw [ht]
        show (if n.isPredicate = true then (ws.map Word.index).foldl min w.index
              else (ws.map Word.index).foldl max w.index) = _
        rw [if_pos hp]
      constructor
      · rw [hind]
        rcases foldl_min_choice (ws.map Word.index) w.index with hc | hc
        · rw [hc]; simp
        · simp only [List.map_cons, List.mem_cons]
          exact Or.inr hc
      · intro i hi
        simp only [List.map_cons, List.mem_cons] at hi
        rw [hind]
        rcases hi with hi | hi
        · rw [hi]; exact (foldl_min_le (ws.map Word.index) w.index).1
        · exact (foldl_min_le (ws.map Word.index) w.index).2 i hi
  · intro hne hp
    cases ht : n.text with
    | nil => exact absurd ht hne
    | cons w ws =>
      have hind : get_node_ind n = (ws.map Word.index).foldl max w.index := by
        unfold get_node_ind
        rw [ht]
        show (if n.isPredicate = true then (ws.map Word.index).foldl min w.index
              else (ws.map Word.index).foldl max w.index) = _
        rw [if_neg (by rw [hp]; exact Bool.false_ne_true)]
      constructor
      · rw [hind]
        rcases foldl_max_choice (ws.map Word.index) w.index with hc | hc
        · rw [hc]; simp
        · simp only [List.map_cons, List.mem_cons]
          exact Or.inr hc
      · intro i hi
        simp only [List.map_cons, List.mem_cons] at hi
        rw [hind]
        rcases hi with hi | hi
        · rw [hi]; exact (le_foldl_max (ws.map Word.index) w.index).1
        · exact (le_foldl_max (ws.map Word.index) w.index).2 i hi

theorem node_index_projection_witness :
    (c10pred.text ≠ [] ∧ c10pred.isPredicate = true ∧
     get_node_ind c10pred ∈ c10pred.text.map Word.index ∧
     (∀ i ∈ c10pred.text.map Word.index, get_node_ind c10pred ≤ i)) ∧
    (c10ent.text ≠ [] ∧ c10ent.isPredicate = false ∧
     get_node_ind c10ent ∈ c10ent.text.map Word.index ∧
     (∀ i ∈ c10ent.text.map Word.index, i ≤ get_node_ind c10ent)) ∧
    (c10empty.text = [] ∧ get_node_ind c10empty = c10empty.nid) :=
  ⟨⟨by decide, by decide,
    (node_index_projection c10pred).2.1 (by decide) (by decide)⟩,
   ⟨by decide, by decide,
    (node_index_projection c10ent).2.2 (by decide) (by decide)⟩,
   ⟨by decide, (node_index_projection c10empty).1 (by decide)⟩⟩

/-- C4 counterexample: on `cup New York drank`, the head token (index 3,
0-based 2) of the original entity `A1` lies inside the recognized named-entity
span `New York` (0-based indices 1–2), yet after `_split_entities` the record
for `A1` is the single-word split `("York", [2])`, not the named entity's full
text and range `("New York", [1, 2])` — the in-span preposition branch
overwrites the named-entity record, because the preposition's child is the
entity head and so shares its symbol. -/
theorem ne_precedence_cex :
    ent_symbol_to_head_ind c4pre.tok_ind_to_symbol (Sym.A 1) = some 3 ∧
    (all_NEs_token_indices (get_named_entities [c4ne])).contains (3 - 1) = true ∧
    NE_to_entity c4ne = ("New York", [1, 2]) ∧
    (split_entities c4dt [c4ne] c4pre).map
      (fun st => dlookup (Sym.A 1) st.entities) = some (some ("York", [2])) ∧
    (("York", [2]) : EntityRecord) ≠ ("New York", [1, 2]) := by decide

/-- C4 amended: the head-inside-named-entity check itself does what the claim
says — it records the named entity's full surface text and index range under
the entity's symbol and removes the named entity from the pending-insertion
set — but this happens at the start of the entity's processing, and the
subsequent token loop may overwrite the record under the same symbol (as the
counterexample shows). -/
theorem ne_precedence_amended {nes : List NamedEntity} {sym : Sym} {k : Nat}
    {ss : SplitState} {ne : NamedEntity}
    (hin : (all_NEs_token_indices (get_named_entities nes)).contains (k - 1) = true)
    (hc : tok_ind_to_NE (get_named_entities nes) (k - 1) = some ne) :
    split_entity_ne_check nes sym k ss =
      some ⟨ss.ps, dinsert sym (NE_to_entity ne) ss.ret,
            ss.nes_to_insert.erase ne⟩ ∧
    dlookup sym (dinsert sym (NE_to_entity ne) ss.ret) = some (NE_to_entity ne) := by
  constructor
  · unfold split_entity_ne_check
    rw [if_pos hin, hc]
  · exact dlookup_dinsert_self

theorem ne_precedence_amended_witness :
    (all_NEs_token_indices (get_named_entities [c4wne])).contains (3 - 1) = true ∧
    tok_ind_to_NE (get_named_entities [c4wne]) (3 - 1) = some c4wne ∧
    (split_entity_ne_check [c4wne] (Sym.A 1) 3 c4wss =
       some ⟨c4wss.ps, dinsert (Sym.A 1) (NE_to_entity c4wne) c4wss.ret,
             c4wss.nes_to_insert.erase c4wne⟩ ∧
     dlookup (Sym.A 1) (dinsert (Sym.A 1) (NE_to_entity c4wne) c4wss.ret) =
       some (NE_to_entity c4wne)) :=
  ⟨by decide, by decide,
   @ne_precedence_amended [c4wne] (Sym.A 1) 3 c4wss c4wne (by decide) (by decide)⟩

/-- C5 counterexample: on `deal in Boston happened`, the token `in` of the
entity span `deal in Boston` has dependency relation `prep` and exactly one
dependency child (`Boston`, token 3, 0-based 2, inside the span) — yet the
splitter emits no predicate at all for it: the token is the root of a pending
named entity, and that earlier branch promotes it to an entity of its own
(`A2 := ("in", [1])`) instead, so the promised preposition predicate never
appears. -/
theorem prep_split_cex :
    depById c5dt 2 = some ⟨2, "in", "IN", "prep", some 1, [3]⟩ ∧
    dlookup (Sym.A 1) c5pre.entities = some ("deal in Boston", [0, 1, 2]) ∧
    ([0, 1, 2] : List Nat).contains (3 - 1) = true ∧
    split_entities c5dt [c5ne] c5pre = some c5post ∧
    (∀ q ∈ c5post.predicates, q.2.head.surface ≠ "in") ∧
    dlookup (Sym.A 2) c5post.entities = some ("in", [1]) := by decide

/-- C5 amended: the preposition branch of the token loop behaves as the claim
describes, but only for tokens that actually reach it — in particular the
token must not be covered by a named-entity span and must not be the root of a
pending named entity (and must not trigger the head-capture branch), since
those earlier branches preempt it.  When reached with relation `prep`, exactly
one child, and the child's 0-based index inside the span, it emits the child
as a single-word entity and an explicit predicate whose template is
`\x7bhead\x7d word \x7bchild\x7d`, whose head is the preposition's surface
(also used as lemma) with POS `IN`, and whose arguments are
`[head symbol, child symbol]`. -/
theorem prep_split_amended {dt : List DepNode} {nes : List NamedEntity}
    {sym : Sym} {k : Nat} {inds : List Nat} {cur child : DepNode}
    {ss : SplitState} {word : String} {ind cid : Nat}
    (h1 : (all_NEs_token_indices (get_named_entities nes)).contains ind = false)
    (h2 : cur.parent_relation = "prep")
    (h3 : cur.children = [cid])
    (h4 : inds.contains (cid - 1) = true)
    (h5 : depById dt cid = some child) :
    split_token_rest dt nes sym k inds cur ss word ind =
      some ⟨{ (get_element_symbol
                (get_element_symbol ss.ps child.id gensym_ent).2
                (ind + 1) gensym_pred).2 with
              predicates := dinsert
                (get_element_symbol
                  (get_element_symbol ss.ps child.id gensym_ent).2
                  (ind + 1) gensym_pred).1
                (PredRecord.mk (BareP.words word [ind])
                  (placeholder sym ++ " " ++ word ++ " " ++
                   placeholder (get_element_symbol ss.ps child.id gensym_ent).1)
                  (HeadVal.mk word none word "IN")
                  [sym, (get_element_symbol ss.ps child.id gensym_ent).1])
                (get_element_symbol
                  (get_element_symbol ss.ps child.id gensym_ent).2
                  (ind + 1) gensym_pred).2.predicates },
            dinsert (get_element_symbol ss.ps child.id gensym_ent).1
              (child.word, [child.id - 1]) ss.ret,
            ss.nes_to_insert⟩ := by
  unfold split_token_rest
  rw [if_neg (by rw [h1]; exact Bool.false_ne_true)]
  rw [if_neg (by rw [h2]; decide)]
  have hc : (cur.parent_relation = "prep" && cur.children.length == 1 &&
      (match cur.children.head? with
       | some cid' => inds.contains (cid' - 1)
       | none => false)) = true := by
    rw [h2, h3]
    simp only [List.head?_cons]
    simp
    exact List.mem_of_elem_eq_true h4
  rw [if_pos hc]
  simp only [h3, List.head?_cons, h5]

theorem prep_split_amended_witness :
    (all_NEs_token_indices (get_named_entities [])).contains 1 = false ∧
    (⟨2, "to", "IN", "prep", some 1, [3]⟩ : DepNode).parent_relation = "prep" ∧
    (⟨2, "to", "IN", "prep", some 1, [3]⟩ : DepNode).children = [3] ∧
    ([0, 1, 2] : List Nat).contains (3 - 1) = true ∧
    depById c5wdt 3 = some ⟨3, "Mary", "NNP", "pobj", some 2, []⟩ ∧
    split_token_rest c5wdt [] (Sym.A 1) 1 [0, 1, 2]
        ⟨2, "to", "IN", "prep", some 1, [3]⟩ c5wss "to" 1 =
      some ⟨{ (get_element_symbol
                (get_element_symbol c5wss.ps
                  (⟨3, "Mary", "NNP", "pobj", some 2, []⟩ : DepNode).id
                  gensym_ent).2 (1 + 1) gensym_pred).2 with
              predicates := dinsert
                (get_element_symbol
                  (get_element_symbol c5wss.ps
                    (⟨3, "Mary", "NNP", "pobj", some 2, []⟩ : DepNode).id
                    gensym_ent).2 (1 + 1) gensym_pred).1
                (PredRecord.mk (BareP.words "to" [1])
                  (placeholder (Sym.A 1) ++ " " ++ "to" ++ " " ++
                   placeholder (get_element_symbol c5wss.ps
                     (⟨3, "Mary", "NNP", "pobj", some 2, []⟩ : DepNode).id
                     gensym_ent).1)
                  (HeadVal.mk "to" none "to" "IN")
                  [Sym.A 1, (get_element_symbol c5wss.ps
                     (⟨3, "Mary", "NNP", "pobj", some 2, []⟩ : DepNode).id
                     gensym_ent).1])
                (get_element_symbol
                  (get_element_symbol c5wss.ps
                    (⟨3, "Mary", "NNP", "pobj", some 2, []⟩ : DepNode).id
                    gensym_ent).2 (1 + 1) gensym_pred).2.predicates },
            dinsert (get_element_symbol c5wss.ps
                (⟨3, "Mary", "NNP", "pobj", some 2, []⟩ : DepNode).id
                gensym_ent).1
              ((⟨3, "Mary", "NNP", "pobj", some 2, []⟩ : DepNode).word,
               [(⟨3, "Mary", "NNP", "pobj", some 2, []⟩ : DepNode).id - 1])
              c5wss.ret,
            c5wss.nes_to_insert⟩ :=
  ⟨by decide, by decide, by decide, by decide, by decide,
   @prep_split_amended c5wdt [] (Sym.A 1) 1 [0, 1, 2]
     ⟨2, "to", "IN", "prep", some 1, [3]⟩ ⟨3, "Mary", "NNP", "pobj", some 2, []⟩
     c5wss "to" 1 3 (by decide) (by decide) (by decide) (by decide) (by decide)⟩

/-- C6: for every qualifying predicate node that `parse_predicate` processes
successfully, the stored template is the index-ordered concatenation
(`build_template` sorts its elements by token index and joins them with
spaces) of the bare-predicate tokens' literal words at their token indices and
exactly one placeholder per argument — nested-predicate placeholders and
entity placeholders each positioned at the argument node's `get_node_ind`
projection — and the stored argument list pairs up with those placeholders
(entity symbols followed by nested-predicate symbols), so no placeholder is
duplicated or dropped. -/
theorem template_interleaving {dt : List DepNode} {g pns : List PropsNode}
    {st st' : PState} {pn : PropsNode}
    (hok : symtabOk st)
    (h : parse_predicate dt g pns st pn = some st') :
    ∃ (bare : List DepNode) (eArgs pArgs : List PropsNode)
      (eSyms pSyms : List Sym) (rec : PredRecord),
      get_mwp dt g pn = some bare ∧
      pArgs = (get_props_neighbors g g.length pn).filter
        (fun n => pns.contains n) ∧
      eArgs = (get_props_neighbors g g.length pn).filter
        (fun n => !pns.contains n && !n.isImplicit) ∧
      pSyms.length = pArgs.length ∧
      eSyms.length = eArgs.length ∧
      dlookup (get_element_symbol st (get_node_ind pn) gensym_pred).1
        st'.predicates = some rec ∧
      rec.arguments = eSyms ++ pSyms ∧
      rec.template = build_template
        (bare.map (fun n => (n.id, n.word)) ++
         (pArgs.zip pSyms).map (fun p => (get_node_ind p.1, placeholder p.2)) ++
         (eArgs.zip eSyms).map (fun p => (get_node_ind p.1, placeholder p.2))) := by
  cases hdep : get_dep_node dt pn with
  | none => rw [parse_predicate, hdep] at h; exact absurd h (by simp)
  | some dep =>
    have heq := @parse_predicate_eq dt g pns st pn dep hdep hok
    rw [heq, Option.some.injEq] at h
    obtain ⟨m11, m12, m13, m14, m15, m16, m17, m18⟩ :=
      @mapSyms_spec gensym_pred (fun s => !isEntitySym s) genSpec_pred
        ((get_props_neighbors g g.length pn).filter (fun n => pns.contains n))
        (get_element_symbol st (get_node_ind pn) gensym_pred).2
        (ges_spec genSpec_pred st (get_node_ind pn) hok).2.2.2.1
    obtain ⟨m21, m22, m23, m24, m25, m26, m27, m28⟩ :=
      @mapSyms_spec gensym_ent isEntitySym genSpec_ent
        ((get_props_neighbors g g.length pn).filter
          (fun n => !pns.contains n && !n.isImplicit))
        (mapSyms gensym_pred
          (get_element_symbol st (get_node_ind pn) gensym_pred).2
          ((get_props_neighbors g g.length pn).filter
            (fun n => pns.contains n))).2
        m14
    refine ⟨dep :: (get_children dt dep).filter
        (fun c => AUX_LABELS.contains c.parent_relation &&
          !is_props_dependent g pn c.id),
      (get_props_neighbors g g.length pn).filter
        (fun n => !pns.contains n && !n.isImplicit),
      (get_props_neighbors g g.length pn).filter (fun n => pns.contains n),
      (mapSyms gensym_ent
        (mapSyms gensym_pred
          (get_element_symbol st (get_node_ind pn) gensym_pred).2
          ((get_props_neighbors g g.length pn).filter
            (fun n => pns.contains n))).2
        ((get_props_neighbors g g.length pn).filter
          (fun n => !pns.contains n && !n.isImplicit))).1,
      (mapSyms gensym_pred
        (get_element_symbol st (get_node_ind pn) gensym_pred).2
        ((get_props_neighbors g g.length pn).filter
          (fun n => pns.contains n))).1,
      { bare := BareP.words
          (pyJoin ((pySortBy DepNode.id
            (dep :: (get_children dt dep).filter
              (fun c => AUX_LABELS.contains c.parent_relation &&
                !is_props_dependent g pn c.id))).map DepNode.word))
          ((pySortBy DepNode.id
            (dep :: (get_children dt dep).filter
              (fun c => AUX_LABELS.contains c.parent_relation &&
                !is_props_dependent g pn c.id))).map (fun n => n.id - 1)),
        template := build_template
          ((dep :: (get_children dt dep).filter
              (fun c => AUX_LABELS.contains c.parent_relation &&
                !is_props_dependent g pn c.id)).map (fun n => (n.id, n.word)) ++
           (((get_props_neighbors g g.length pn).filter
               (fun n => pns.contains n)).zip
             (mapSyms gensym_pred
               (get_element_symbol st (get_node_ind pn) gensym_pred).2
               ((get_props_neighbors g g.length pn).filter
                 (fun n => pns.contains n))).1).map
             (fun p => (get_node_ind p.1, placeholder p.2)) ++
           (((get_props_neighbors g g.length pn).filter
               (fun n => !pns.contains n && !n.isImplicit)).zip
             (mapSyms gensym_ent
               (mapSyms gensym_pred
                 (get_element_symbol st (get_node_ind pn) gensym_pred).2
                 ((get_props_neighbors g g.length pn).filter
                   (fun n => pns.contains n))).2
               ((get_props_neighbors g g.length pn).filter
                 (fun n => !pns.contains n && !n.isImplicit))).1).map
             (fun p => (get_node_ind p.1, placeholder p.2))),
        head := { surface := dep.word, surfaceInds := some [dep.id - 1],
                  hlemma := pn.lemmaFeat.getD "", pos := dep.pos },
        arguments :=
          (mapSyms gensym_ent
            (mapSyms gensym_pred
              (get_element_symbol st (get_node_ind pn) gensym_pred).2
              ((get_props_neighbors g g.length pn).filter
                (fun n => pns.contains n))).2
            ((get_props_neighbors g g.length pn).filter
              (fun n => !pns.contains n && !n.isImplicit))).1 ++
          (mapSyms gensym_pred
            (get_element_symbol st (get_node_ind pn) gensym_pred).2
            ((get_props_neighbors g g.length pn).filter
              (fun n => pns.contains n))).1 },
      ?_, rfl, rfl, m15, m25, ?_, rfl, rfl⟩
    · rw [get_mwp, hdep, Option.map_some']
    · rw [← h]
      rw [addEntitiesFor_predicates]
      exact dlookup_dinsert_self

theorem template_interleaving_witness :
    symtabOk init_state ∧
    parse_predicate c6dt c6g [c6pn] init_state c6pn = some c6st ∧
    (∃ (bare : List DepNode) (eArgs pArgs : List PropsNode)
       (eSyms pSyms : List Sym) (rec : PredRecord),
      get_mwp c6dt c6g c6pn = some bare ∧
      pArgs = (get_props_neighbors c6g c6g.length c6pn).filter
        (fun n => [c6pn].contains n) ∧
      eArgs = (get_props_neighbors c6g c6g.length c6pn).filter
        (fun n => !([c6pn].contains n) && !n.isImplicit) ∧
      pSyms.length = pArgs.length ∧
      eSyms.length = eArgs.length ∧
      dlookup (get_element_symbol init_state (get_node_ind c6pn) gensym_pred).1
        c6st.predicates = some rec ∧
      rec.arguments = eSyms ++ pSyms ∧
      rec.template = build_template
        (bare.map (fun n => (n.id, n.word)) ++
         (pArgs.zip pSyms).map (fun p => (get_node_ind p.1, placeholder p.2)) ++
         (eArgs.zip eSyms).map (fun p => (get_node_ind p.1, placeholder p.2)))) :=
  ⟨init_symtabOk, by decide,
   @template_interleaving c6dt c6g [c6pn] init_state c6st c6pn init_symtabOk
     (by decide)⟩

/-- C8: if a proposition node's token span matches no dependency-tree token,
`get_dep_node` yields no anchor (the Python `min` raises), `parse_predicate`
on that node fails, and — whenever the node qualifies as a predicate — the
whole sentence aborts: `parse` returns no OKR at all.  Conversely, when a
match exists, the chosen anchor is one of the matching tokens and has minimal
height (depth from ROOT) among them. -/
theorem dep_anchor_min_or_abort {dt : List DepNode} {g : List PropsNode}
    (pn : PropsNode) :
    (dt.filter (fun node => (pn.text.map Word.index).contains node.id) = [] →
      get_dep_node dt pn = none ∧
      (∀ pns st, parse_predicate dt g pns st pn = none) ∧
      (∀ ci cz cc nes, pn ∈ get_predicates cz ci cc g →
        parse ci cz cc dt g nes = none)) ∧
    (∀ dep, get_dep_node dt pn = some dep →
      dep ∈ dt.filter (fun node => (pn.text.map Word.index).contains node.id) ∧
      ∀ m ∈ dt.filter (fun node => (pn.text.map Word.index).contains node.id),
        get_dep_height dt dt.length dep ≤ get_dep_height dt dt.length m) := by
  constructor
  · intro hnil
    have hnone : get_dep_node dt pn = none := by
      unfold get_dep_node
      rw [hnil]
      rfl
    have habort : ∀ pns st, parse_predicate dt g pns st pn = none := by
      intro pns st
      unfold parse_predicate
      rw [hnone]
    refine ⟨hnone, habort, ?_⟩
    intro ci cz cc nes hmem
    unfold parse parse_okr
    dsimp only []
    rw [ofoldl_none hmem (fun s => habort (get_predicates cz ci cc g) s)
      init_state]
    rfl
  · intro dep hdep
    unfold get_dep_node at hdep
    exact ⟨pyMin_mem hdep, pyMin_le hdep⟩

theorem dep_anchor_min_or_abort_witness :
    (c8dt.filter (fun node => (c8bad.text.map Word.index).contains node.id) = [] ∧
     get_dep_node c8dt c8bad = none ∧
     c8bad ∈ get_predicates true true true c8g ∧
     parse true true true c8dt c8g [] = none) ∧
    (get_dep_node c8dt c8good = some ⟨2, "barked", "VBD", "root", some 0, [1]⟩ ∧
     (⟨2, "barked", "VBD", "root", some 0, [1]⟩ : DepNode) ∈
       c8dt.filter (fun node => (c8good.text.map Word.index).contains node.id) ∧
     ∀ m ∈ c8dt.filter (fun node => (c8good.text.map Word.index).contains node.id),
       get_dep_height c8dt c8dt.length ⟨2, "barked", "VBD", "root", some 0, [1]⟩ ≤
         get_dep_height c8dt c8dt.length m) :=
  ⟨⟨by decide,
    ((@dep_anchor_min_or_abort c8dt c8g c8bad).1 (by decide)).1,
    by decide,
    ((@dep_anchor_min_or_abort c8dt c8g c8bad).1 (by decide)).2.2
      true true true [] (by decide)⟩,
   by decide,
   (@dep_anchor_min_or_abort c8dt c8g c8good).2
     ⟨2, "barked", "VBD", "root", some 0, [1]⟩ (by decide)⟩

end PropsWrapper
